import Mathlib

/-!
# SessionManager: the in-memory session store and the session manager

A shallow embedding of `providers/memory/memory.go` and `SessionManager.go`.

* A Go `map` is an association list with at most one entry per key
  (`mapGet`, `mapSet`, `mapDelete`).
* `container/list` is the list of its elements from front to back
  (`PushBack`, `Remove`, `MoveToFront`, `Front`, `Back`).
* Pointers are indices into a heap of `SessionStore` objects. `SessionInit`
  allocates one `SessionStore` and one `list.Element` holding it, so one index
  names both.
* `time.Time` is a number of nanoseconds since the Unix epoch; every operation
  that calls `time.Now()` takes the clock reading as the argument `now`.
* `int64` arithmetic wraps (`wrapInt64`).
* Operations run one after another. What each store operation does with the mutex
  is recorded separately, as its sequence of lock, unlock and access steps
  (`Event`, `lockDiscipline`); the interleaving of goroutines is not modelled.
* The registry `providers` is an explicit argument of `Register` and `NewManager`.
-/

namespace SessionManager

/-! ## Go maps -/

/-- Lookup `m[k]`: the value and `ok`, as an option. -/
def mapGet {κ α : Type} [DecidableEq κ] : List (κ × α) → κ → Option α
  | [], _ => none
  | (k', v) :: rest, k => if k' = k then some v else mapGet rest k

/-- The builtin `delete(m, k)`. -/
def mapDelete {κ α : Type} [DecidableEq κ] (m : List (κ × α)) (k : κ) : List (κ × α) :=
  m.filter (fun e => decide (e.1 ≠ k))

/-- Assignment `m[k] = v`. -/
def mapSet {κ α : Type} [DecidableEq κ] (m : List (κ × α)) (k : κ) (v : α) : List (κ × α) :=
  (k, v) :: mapDelete m k

/-- The keys of a map. -/
def mapKeys {κ α : Type} (m : List (κ × α)) : List κ :=
  m.map Prod.fst

/-! ## container/list -/

/-- `l.PushBack(v)`: the new element `e` goes to the back. -/
def PushBack (l : List Nat) (e : Nat) : List Nat :=
  l ++ [e]

/-- `l.Remove(e)`: unlinks `e` when it is an element of `l`. -/
def Remove (l : List Nat) (e : Nat) : List Nat :=
  l.erase e

/-- `l.MoveToFront(e)`: nothing happens when `e` is not an element of `l`
or is already the front. -/
def MoveToFront (l : List Nat) (e : Nat) : List Nat :=
  if e ∈ l then e :: l.erase e else l

/-- `l.Front()`: `none` stands for `nil`. -/
def Front (l : List Nat) : Option Nat :=
  l.head?

/-- `l.Back()`: `none` stands for `nil`. -/
def Back (l : List Nat) : Option Nat :=
  l.getLast?

/-! ## Time and int64 -/

/-- A `time.Time`, in nanoseconds since the Unix epoch. -/
abbrev Time := Int

/-- `t.Unix()`: whole seconds since the epoch. -/
def Time.Unix (t : Time) : Int :=
  t / 1000000000

/-- The value an `int64` holds after a computation whose exact result is `x`. -/
def wrapInt64 (x : Int) : Int :=
  (x + 9223372036854775808) % 18446744073709551616 - 9223372036854775808

/-! ## Values of type interface{} -/

/-- A dynamically typed value: `nil`, a string, an integer or a boolean. -/
inductive Iface where
  | nil
  | str (s : String)
  | int (n : Int)
  | bool (b : Bool)
  deriving DecidableEq, Repr

/-- A Go `error`; `none` is the `nil` error. -/
abbrev error := Option String

/-! ## The memory provider -/

/-- The struct `SessionStore`. -/
structure SessionStore where
  sid : String
  timeAccessed : Time
  value : List (Iface × Iface)
  deriving DecidableEq, Repr

/-- The struct `Provider`, with the heap its pointers refer to. -/
structure Provider where
  heap : List SessionStore
  sessions : List (String × Nat)
  list : List Nat
  deriving DecidableEq, Repr

/-- The object a pointer refers to. Every pointer the program holds is below
`heap.length`; outside that range the zero value is returned. -/
def deref (heap : List SessionStore) (ptr : Nat) : SessionStore :=
  heap.getD ptr { sid := "", timeAccessed := 0, value := [] }

/-- The package variable `prov` after `init()`: an empty map and an empty list. -/
def prov : Provider :=
  { heap := [], sessions := [], list := [] }

/-- `Provider.SessionInit`. -/
def SessionInit (p : Provider) (sid : String) (now : Time) : (Nat × error) × Provider :=
  let newSess := p.heap.length
  let element := newSess
  ((newSess, none),
   { heap := p.heap ++ [{ sid := sid, timeAccessed := now, value := [] }],
     sessions := mapSet p.sessions sid element,
     list := PushBack p.list element })

/-- `Provider.SessionRead`. -/
def SessionRead (p : Provider) (sid : String) (now : Time) : (Nat × error) × Provider :=
  match mapGet p.sessions sid with
  | some element => ((element, none), p)
  | none => SessionInit p sid now

/-- `Provider.SessionDestroy`. -/
def SessionDestroy (p : Provider) (sid : String) : error × Provider :=
  match mapGet p.sessions sid with
  | some element =>
    (none, { p with sessions := mapDelete p.sessions sid, list := Remove p.list element })
  | none => (none, p)

/-- The `for` loop of `Provider.SessionGC`, one iteration per unit of fuel;
`none` when the fuel runs out before the loop breaks. The sweep holds the lock and
every iteration sees the same clock reading `now`. -/
def SessionGCLoop (maxLifeTime : Int) (now : Time) : Nat → Provider → Option Provider
  | 0, _ => none
  | fuel + 1, p =>
    match Back p.list with
    | none => some p
    | some element =>
      if wrapInt64 ((deref p.heap element).timeAccessed.Unix + maxLifeTime) < now.Unix then
        SessionGCLoop maxLifeTime now fuel
          { p with list := Remove p.list element,
                   sessions := mapDelete p.sessions (deref p.heap element).sid }
      else some p

/-- `Provider.SessionGC`, run with one unit of fuel more than the list has elements. -/
def SessionGC (p : Provider) (maxLifeTime : Int) (now : Time) : Option Provider :=
  SessionGCLoop maxLifeTime now (p.list.length + 1) p

/-- The assignment `element.Value.(*SessionStore).timeAccessed = t`. -/
def setTimeAccessed (heap : List SessionStore) (ptr : Nat) (t : Time) : List SessionStore :=
  heap.modify (fun s => { s with timeAccessed := t }) ptr

/-- `Provider.SessionUpdate`. -/
def SessionUpdate (p : Provider) (sid : String) (now : Time) : error × Provider :=
  match mapGet p.sessions sid with
  | some element =>
    (none, { p with heap := setTimeAccessed p.heap element now,
                    list := MoveToFront p.list element })
  | none => (none, p)

/-! ## Session values -/

/-- `SessionStore.SessionID`, for the session `st` points to. -/
def SessionStore.SessionID (p : Provider) (st : Nat) : String :=
  (deref p.heap st).sid

/-- `SessionStore.Set`, on the session `st` points to. -/
def SessionStore.Set (p : Provider) (st : Nat) (key value : Iface) (now : Time) :
    error × Provider :=
  let p1 : Provider :=
    { p with heap := p.heap.modify (fun s => { s with value := mapSet s.value key value }) st }
  (none, (SessionUpdate p1 (deref p1.heap st).sid now).2)

/-- `SessionStore.Get`, on the session `st` points to; `Iface.nil` when the key is absent. -/
def SessionStore.Get (p : Provider) (st : Nat) (key : Iface) (now : Time) : Iface × Provider :=
  let p1 := (SessionUpdate p (deref p.heap st).sid now).2
  match mapGet (deref p1.heap st).value key with
  | some v => (v, p1)
  | none => (Iface.nil, p1)

/-- `SessionStore.Delete`, on the session `st` points to. -/
def SessionStore.Delete (p : Provider) (st : Nat) (key : Iface) (now : Time) : error × Provider :=
  let p1 : Provider :=
    { p with heap := p.heap.modify (fun s => { s with value := mapDelete s.value key }) st }
  (none, (SessionUpdate p1 (deref p1.heap st).sid now).2)

/-! ## Sequences of calls -/

/-- One call into the store, with the clock reading it sees. -/
inductive Call where
  | SessionInit (sid : String) (now : Time)
  | SessionRead (sid : String) (now : Time)
  | SessionDestroy (sid : String)
  | SessionGC (maxLifeTime : Int) (now : Time)
  | SessionUpdate (sid : String) (now : Time)
  | Set (st : Nat) (key value : Iface) (now : Time)
  | Get (st : Nat) (key : Iface) (now : Time)
  | Delete (st : Nat) (key : Iface) (now : Time)
  deriving DecidableEq, Repr

/-- The store after one call; `none` only when the sweep runs out of fuel. -/
def Call.apply (p : Provider) : Call → Option Provider
  | .SessionInit sid now => some (SessionManager.SessionInit p sid now).2
  | .SessionRead sid now => some (SessionManager.SessionRead p sid now).2
  | .SessionDestroy sid => some (SessionManager.SessionDestroy p sid).2
  | .SessionGC maxLifeTime now => SessionManager.SessionGC p maxLifeTime now
  | .SessionUpdate sid now => some (SessionManager.SessionUpdate p sid now).2
  | .Set st key value now => some (SessionStore.Set p st key value now).2
  | .Get st key now => some (SessionStore.Get p st key now).2
  | .Delete st key now => some (SessionStore.Delete p st key now).2

/-- The store after a sequence of calls, first call first. -/
def runCalls : List Call → Provider → Option Provider
  | [], p => some p
  | c :: rest, p =>
    match c.apply p with
    | some p1 => runCalls rest p1
    | none => none

/-- The clock reading of a call, for the calls that read the clock. -/
def Call.now : Call → Option Time
  | .SessionInit _ now => some now
  | .SessionRead _ now => some now
  | .SessionDestroy _ => none
  | .SessionGC _ now => some now
  | .SessionUpdate _ now => some now
  | .Set _ _ _ now => some now
  | .Get _ _ now => some now
  | .Delete _ _ now => some now

/-- Each reading of a list of clock readings is at least the one before it. -/
def nonDecreasing : List Time → Bool
  | a :: b :: rest => decide (a ≤ b) && nonDecreasing (b :: rest)
  | _ => true

/-- The clock readings of a sequence of calls never go back. -/
def clockNonDecreasing (calls : List Call) : Bool :=
  nonDecreasing (calls.filterMap Call.now)

/-- Calls of `SessionInit`, `SessionRead` and `SessionDestroy`. -/
def Call.isInitReadDestroy : Call → Bool
  | .SessionInit _ _ => true
  | .SessionRead _ _ => true
  | .SessionDestroy _ => true
  | _ => false

/-- Every direct `SessionInit` of the sequence is given an identifier that is not a
key of the lookup map when the call is made. -/
def initsFresh : List Call → Provider → Bool
  | [], _ => true
  | c :: rest, p =>
    (match c with
      | .SessionInit sid _ => (mapGet p.sessions sid).isNone
      | _ => true) &&
    (match c.apply p with
      | some p1 => initsFresh rest p1
      | none => true)

/-! ## Library functions the manager calls

Go strings are byte sequences; a byte is represented by the character with that
code, so the strings of the model are those whose characters are below 256. -/

/-- The alphabet of `base64.URLEncoding`. -/
def encodeURL : List Char :=
  "ABCDEFGHIJKLMNOPQRSTUVWXYZabcdefghijklmnopqrstuvwxyz0123456789-_".toList

/-- The character `enc.encode[val & 0x3F]`. -/
def encodeChar (val : Nat) : Char :=
  encodeURL.getD (val % 64) 'A'

/-- The characters `base64.URLEncoding.Encode` writes for the bytes `src`:
four per group of three bytes, and a last group padded with `=`. -/
def encodeChars : List Nat → List Char
  | [] => []
  | [a] =>
    let val := a % 256 * 65536
    [encodeChar (val / 262144), encodeChar (val / 4096), '=', '=']
  | [a, b] =>
    let val := a % 256 * 65536 + b % 256 * 256
    [encodeChar (val / 262144), encodeChar (val / 4096), encodeChar (val / 64), '=']
  | a :: b :: c :: rest =>
    let val := a % 256 * 65536 + b % 256 * 256 + c % 256
    encodeChar (val / 262144) :: encodeChar (val / 4096) :: encodeChar (val / 64) ::
      encodeChar val :: encodeChars rest

/-- `base64.URLEncoding.EncodeToString`. -/
def EncodeToString (src : List Nat) : String :=
  String.mk (encodeChars src)

/-- `shouldEscape(c, encodeQueryComponent)` of `net/url`: everything but letters,
digits and `-`, `_`, `.`, `~` is escaped. -/
def shouldEscape (c : Char) : Bool :=
  !(c.isAlphanum || c = '-' || c = '_' || c = '.' || c = '~')

/-- The digits `upperhex` of `net/url`. -/
def upperhex : List Char :=
  "0123456789ABCDEF".toList

/-- What `url.QueryEscape` writes for one byte. -/
def escapeChar (c : Char) : List Char :=
  if shouldEscape c then
    if c = ' ' then ['+']
    else ['%', upperhex.getD (c.toNat / 16 % 16) '0', upperhex.getD (c.toNat % 16) '0']
  else [c]

/-- `url.QueryEscape`. -/
def QueryEscape (s : String) : String :=
  String.mk (s.toList.flatMap escapeChar)

/-- `ishex` of `net/url`. -/
def ishex (c : Char) : Bool :=
  ('0' ≤ c && c ≤ '9') || ('a' ≤ c && c ≤ 'f') || ('A' ≤ c && c ≤ 'F')

/-- `unhex` of `net/url`. -/
def unhex (c : Char) : Nat :=
  if '0' ≤ c && c ≤ '9' then c.toNat - 48
  else if 'a' ≤ c && c ≤ 'f' then c.toNat - 97 + 10
  else if 'A' ≤ c && c ≤ 'F' then c.toNat - 65 + 10
  else 0

/-- The bytes `url.QueryUnescape` produces, `none` when a `%` is not followed by
two hexadecimal digits (an `EscapeError`). -/
def unescapeChars : List Char → Option (List Char)
  | [] => some []
  | c :: rest =>
    if c = '%' then
      match rest with
      | h :: l :: rest2 =>
        if ishex h && ishex l then
          (unescapeChars rest2).map (fun t => Char.ofNat (unhex h * 16 + unhex l) :: t)
        else none
      | _ => none
    else if c = '+' then (unescapeChars rest).map (fun t => ' ' :: t)
    else (unescapeChars rest).map (fun t => c :: t)

/-- `url.QueryUnescape`; `none` stands for a non-nil error. -/
def QueryUnescape (s : String) : Option String :=
  (unescapeChars s.toList).map String.mk

/-! ## The session manager

A request is the list of cookies `net/http` parsed from it, and the response is the
list of cookies for which `http.SetCookie` added a `Set-Cookie` header, in order. -/

/-- The fields of `http.Cookie` the manager sets. -/
structure Cookie where
  Name : String
  Value : String
  Path : String
  HttpOnly : Bool
  Expires : Option Time
  MaxAge : Int
  deriving DecidableEq, Repr

/-- The cookies of an `http.Request`, as name and value. The parser of `net/http`
keeps only cookies whose name is a valid cookie name. -/
structure Request where
  cookies : List (String × String)
  deriving DecidableEq, Repr

/-- `r.Cookie(name)`: the value of the first cookie of that name, `none` for
`ErrNoCookie`. -/
def Request.Cookie (r : Request) (name : String) : Option String :=
  mapGet r.cookies name

/-- `httpguts.IsTokenRune`: letters, digits and the characters
`! # $ % & ' * + - . ^ _` and the grave accent, `|`, `~`, given by their codes. -/
def isTokenRune (c : Char) : Bool :=
  c.isAlphanum ||
    [33, 35, 36, 37, 38, 39, 42, 43, 45, 46, 94, 95, 96, 124, 126].contains c.toNat

/-- `isCookieNameValid` of `net/http`: a non-empty string of token characters. -/
def isCookieNameValid (raw : String) : Bool :=
  decide (raw ≠ "") && raw.toList.all isTokenRune

/-- `validCookieValueByte` of `net/http`: the bytes `http.SetCookie` keeps in a
cookie value; a value that also has no space and no comma is written unquoted. -/
def validCookieValueByte (c : Char) : Bool :=
  decide (32 ≤ c.toNat) && decide (c.toNat < 127) &&
    decide (c.toNat ≠ 34) && decide (c.toNat ≠ 59) && decide (c.toNat ≠ 92)

/-- `http.SetCookie(w, &cookie)`: the header is added only when `cookie.String()` is
not empty, that is when the name of the cookie is valid. The values the manager
passes, `QueryEscape(sid)` and the empty string, are written as they are. -/
def SetCookie (w : List Cookie) (cookie : Cookie) : List Cookie :=
  if isCookieNameValid cookie.Name then w ++ [cookie] else w

/-- The struct `Manager`; its provider is the memory provider. -/
structure Manager where
  cookieName : String
  maxLifeTime : Int
  deriving DecidableEq, Repr

/-- `Manager.sessionId`. The argument is what `io.ReadFull(rand.Reader, b)` leaves
in the 32-byte buffer `b`, `none` when it returns an error. -/
def Manager.sessionId (rand : Option (List Nat)) : String :=
  match rand with
  | none => ""
  | some b => EncodeToString b

/-- `Manager.SessionStart`: the session returned, the store and the response
afterwards. The errors of the provider and of `url.QueryUnescape` are dropped, as
in the source; on an unescape error `sid` is the empty string. `int` has 64 bits,
so `int(manager.maxLifeTime)` is `manager.maxLifeTime`. -/
def Manager.SessionStart (manager : Manager) (p : Provider) (w : List Cookie) (r : Request)
    (rand : Option (List Nat)) (now : Time) : Nat × Provider × List Cookie :=
  let create : Nat × Provider × List Cookie :=
    let sid := Manager.sessionId rand
    let res := SessionInit p sid now
    (res.1.1, res.2,
      SetCookie w { Name := manager.cookieName, Value := QueryEscape sid, Path := "/",
                    HttpOnly := true, Expires := none, MaxAge := manager.maxLifeTime })
  match r.Cookie manager.cookieName with
  | none => create
  | some value =>
    if value = "" then create
    else
      let sid := (QueryUnescape value).getD ""
      let res := SessionRead p sid now
      (res.1.1, res.2, w)

/-- `Manager.SessionDestroy`: the store and the response afterwards. -/
def Manager.SessionDestroy (manager : Manager) (p : Provider) (w : List Cookie) (r : Request)
    (now : Time) : Provider × List Cookie :=
  match r.Cookie manager.cookieName with
  | none => (p, w)
  | some value =>
    if value = "" then (p, w)
    else
      ((SessionManager.SessionDestroy p value).2,
        SetCookie w { Name := manager.cookieName, Value := "", Path := "/", HttpOnly := true,
                      Expires := some now, MaxAge := -1 })

/-! ## Predicates on stores -/

/-- The identifiers carried by the elements of the recency list, front to back. -/
def listSids (p : Provider) : List String :=
  p.list.map (fun e => (deref p.heap e).sid)

/-- Every key of the lookup map is the identifier of exactly one list element, the
map holds each key once, and there are as many keys as list elements. -/
def BijectionCount (p : Provider) : Prop :=
  (∀ sid ∈ mapKeys p.sessions, (listSids p).count sid = 1) ∧
  (mapKeys p.sessions).Nodup ∧
  (mapKeys p.sessions).length = p.list.length

instance (p : Provider) : Decidable (BijectionCount p) := by
  unfold BijectionCount; infer_instance

/-- Representation invariant of every store: list elements are distinct valid
pointers, the lookup map holds each key once, and it sends a key only to a list
element that carries this key as its identifier. -/
structure WF (p : Provider) : Prop where
  nodup : p.list.Nodup
  valid : ∀ e ∈ p.list, e < p.heap.length
  sound : ∀ sid e, mapGet p.sessions sid = some e → e ∈ p.list ∧ (deref p.heap e).sid = sid
  keys : (mapKeys p.sessions).Nodup

/-- Representation invariant of the store when no identifier was initialised twice:
list elements are distinct valid pointers, and the lookup map is exactly the
function sending the identifier of a list element to that element. -/
structure Inv (p : Provider) : Prop where
  nodup : p.list.Nodup
  valid : ∀ e ∈ p.list, e < p.heap.length
  sound : ∀ sid e, mapGet p.sessions sid = some e → e ∈ p.list ∧ (deref p.heap e).sid = sid
  complete : ∀ e ∈ p.list, mapGet p.sessions (deref p.heap e).sid = some e
  keys : (mapKeys p.sessions).Nodup

/-- The store after `SessionInit` of `"a"`, `"b"` and `"c"` at the nanoseconds 1, 2
and 3: the elements 0, 1 and 2, in this order from front to back. -/
def storeABC : Provider :=
  (SessionInit (SessionInit (SessionInit prov "a" 1).2 "b" 2).2 "c" 3).2

/-! ## The expiry test and the periodic sweep -/

/-- The test `SessionGC` makes on an entry:
`timeAccessed.Unix() + maxLifeTime < time.Now().Unix()`, the sum taken in `int64`. -/
def expired (maxLifeTime : Int) (now : Time) (s : SessionStore) : Bool :=
  decide (wrapInt64 (s.timeAccessed.Unix + maxLifeTime) < now.Unix)

/-- The sum `timeAccessed.Unix() + maxLifeTime` fits into an `int64`, so the test of
`SessionGC` compares the exact sum with the clock. -/
def sumFits (maxLifeTime : Int) (s : SessionStore) : Prop :=
  -9223372036854775808 ≤ s.timeAccessed.Unix + maxLifeTime ∧
    s.timeAccessed.Unix + maxLifeTime < 9223372036854775808

instance (maxLifeTime : Int) (s : SessionStore) : Decidable (sumFits maxLifeTime s) := by
  unfold sumFits; infer_instance

/-- The constant `time.Second`: a `time.Duration` counts nanoseconds. -/
def Second : Int :=
  1000000000

/-- `Manager.GC`: the store after the sweep, and the `time.Duration` handed to
`time.AfterFunc`. The conversion `time.Duration(manager.maxLifeTime)` keeps the
number as it is. `none` only when the sweep runs out of fuel. -/
def Manager.GC (manager : Manager) (p : Provider) (now : Time) : Option (Provider × Int) :=
  (SessionGC p manager.maxLifeTime now).map (fun q => (q, manager.maxLifeTime))

/-! ## The provider registry -/

/-- `Register`, on the package variable `providers`: the value the call panics with
(`none` when it returns) and the registry afterwards. The argument `provider` is
`none` for the nil interface value. -/
def Register {P : Type} (providers : List (String × P)) (name : String)
    (provider : Option P) : Option String × List (String × P) :=
  match provider with
  | none => (some "session: Register Provider is nil", providers)
  | some pv =>
    match mapGet providers name with
    | some _ => (some ("session: Register called twice for provider " ++ name), providers)
    | none => (none, mapSet providers name pv)

/-- `NewManager`: the error, or the `provider` field of the new manager with its
other fields. The verb `%q` of the error message is rendered by `String.quote`. -/
def NewManager {P : Type} (providers : List (String × P))
    (providerName cookieName : String) (maxLifeTime : Int) : Except String (P × Manager) :=
  match mapGet providers providerName with
  | none =>
    Except.error ("session: unkown provide " ++ providerName.quote ++ " (forgotten import?)")
  | some provider =>
    Except.ok (provider, { cookieName := cookieName, maxLifeTime := maxLifeTime })

/-! ## Locking

What each store operation does with the mutex `prov.lock`, the map `prov.sessions`
and the list `prov.list`, statement by statement in program order. The deferred
`Unlock` runs when the operation returns. -/

/-- One step of a store operation on the shared state. -/
inductive Event where
  | Lock
  | Unlock
  | sessions
  | list
  deriving DecidableEq, Repr

/-- The steps of `Provider.SessionInit`: `Lock`, `PushBack`, the map assignment, and
the deferred `Unlock`. -/
def SessionInit.events : List Event :=
  [Event.Lock, Event.list, Event.sessions, Event.Unlock]

/-- The steps of `Provider.SessionRead`: the map lookup, then either the return or
the call of `SessionInit`. -/
def SessionRead.events (p : Provider) (sid : String) : List Event :=
  Event.sessions ::
    (match mapGet p.sessions sid with
      | some _ => []
      | none => SessionInit.events)

/-- The steps of `Provider.SessionDestroy`: the map lookup and, when the key is
present, `delete` and `Remove`. -/
def SessionDestroy.events (p : Provider) (sid : String) : List Event :=
  Event.sessions ::
    (match mapGet p.sessions sid with
      | some _ => [Event.sessions, Event.list]
      | none => [])

/-- The steps of the loop of `Provider.SessionGC`: `Back`, and for an expired
element `Remove` and `delete`. -/
def SessionGCLoop.events (maxLifeTime : Int) (now : Time) : Nat → Provider → List Event
  | 0, _ => []
  | fuel + 1, p =>
    Event.list ::
      (match Back p.list with
        | none => []
        | some element =>
          if wrapInt64 ((deref p.heap element).timeAccessed.Unix + maxLifeTime) < now.Unix then
            Event.list :: Event.sessions ::
              SessionGCLoop.events maxLifeTime now fuel
                { p with list := Remove p.list element,
                         sessions := mapDelete p.sessions (deref p.heap element).sid }
          else [])

/-- The steps of `Provider.SessionGC`: `Lock`, the loop, and the deferred `Unlock`. -/
def SessionGC.events (p : Provider) (maxLifeTime : Int) (now : Time) : List Event :=
  Event.Lock :: (SessionGCLoop.events maxLifeTime now (p.list.length + 1) p ++ [Event.Unlock])

/-- The steps of `Provider.SessionUpdate`: `Lock`, the map lookup, `MoveToFront` when
the key is present, and the deferred `Unlock`. -/
def SessionUpdate.events (p : Provider) (sid : String) : List Event :=
  Event.Lock :: Event.sessions ::
    ((match mapGet p.sessions sid with
      | some _ => [Event.list]
      | none => []) ++ [Event.Unlock])

/-- Starting with the lock held or not (`held`), the steps take the lock only when
it is free, release it only when it is held, touch the map and the list only while
it is held, and leave it free. -/
def lockDiscipline : Bool → List Event → Bool
  | held, [] => !held
  | held, Event.Lock :: rest => !held && lockDiscipline true rest
  | held, Event.Unlock :: rest => held && lockDiscipline false rest
  | held, Event.sessions :: rest => held && lockDiscipline held rest
  | held, Event.list :: rest => held && lockDiscipline held rest

/-! ## Lemmas on maps -/

theorem mapDelete_cons {κ α : Type} [DecidableEq κ] (a : κ) (v : α) (m : List (κ × α)) (k : κ) :
    mapDelete ((a, v) :: m) k = if a = k then mapDelete m k else (a, v) :: mapDelete m k := by
  unfold mapDelete
  by_cases h : a = k <;> simp [List.filter_cons, h]

theorem mapGet_cons {κ α : Type} [DecidableEq κ] (a : κ) (v : α) (m : List (κ × α)) (k : κ) :
    mapGet ((a, v) :: m) k = if a = k then some v else mapGet m k := rfl

theorem mapGet_mapDelete {κ α : Type} [DecidableEq κ] (m : List (κ × α)) (k k' : κ) :
    mapGet (mapDelete m k) k' = if k = k' then none else mapGet m k' := by
  induction m with
  | nil => simp [mapDelete, mapGet]
  | cons e rest ih =>
    obtain ⟨a, v⟩ := e
    rw [mapDelete_cons]
    by_cases hak : a = k
    · rw [if_pos hak, ih, mapGet_cons]
      by_cases h : k = k'
      · simp [h]
      · have : ¬ a = k' := hak ▸ h
        simp [h, this]
    · rw [if_neg hak, mapGet_cons, mapGet_cons, ih]
      by_cases h2 : a = k'
      · have : ¬ k = k' := fun x => hak (h2.trans x.symm)
        simp [h2, this]
      · simp [h2]

theorem mapGet_mapSet {κ α : Type} [DecidableEq κ] (m : List (κ × α)) (k k' : κ) (v : α) :
    mapGet (mapSet m k v) k' = if k = k' then some v else mapGet m k' := by
  by_cases h : k = k'
  · simp [mapSet, mapGet, h]
  · simp [mapSet, mapGet, h, mapGet_mapDelete]

theorem mapGet_eq_none_iff {κ α : Type} [DecidableEq κ] (m : List (κ × α)) (k : κ) :
    mapGet m k = none ↔ k ∉ mapKeys m := by
  induction m with
  | nil => simp [mapGet, mapKeys]
  | cons e rest ih =>
    obtain ⟨a, v⟩ := e
    by_cases h : a = k
    · simp [mapGet, mapKeys, h]
    · have h' : ¬ k = a := fun x => h x.symm
      simp [mapGet, mapKeys, h, h'] at ih ⊢
      exact ih

theorem mapDelete_of_absent {κ α : Type} [DecidableEq κ] (m : List (κ × α)) (k : κ)
    (h : mapGet m k = none) : mapDelete m k = m := by
  rw [mapGet_eq_none_iff] at h
  unfold mapDelete
  rw [List.filter_eq_self]
  intro e he
  have : e.1 ∈ mapKeys m := List.mem_map_of_mem Prod.fst he
  simp
  intro hk
  exact h (hk ▸ this)

theorem mapKeys_mapDelete {κ α : Type} [DecidableEq κ] (m : List (κ × α)) (k : κ) :
    mapKeys (mapDelete m k) = (mapKeys m).filter (fun a => decide (a ≠ k)) := by
  induction m with
  | nil => simp [mapDelete, mapKeys]
  | cons e rest ih =>
    unfold mapDelete mapKeys at ih ⊢
    by_cases h : e.1 = k
    · simp [List.filter_cons, h] at ih ⊢
      exact ih
    · simp [List.filter_cons, h] at ih ⊢
      exact ih

theorem mapKeys_mapDelete_nodup {κ α : Type} [DecidableEq κ] (m : List (κ × α)) (k : κ)
    (h : (mapKeys m).Nodup) : (mapKeys (mapDelete m k)).Nodup := by
  rw [mapKeys_mapDelete]
  exact h.filter _

theorem not_mem_mapKeys_mapDelete {κ α : Type} [DecidableEq κ] (m : List (κ × α)) (k : κ) :
    k ∉ mapKeys (mapDelete m k) := by
  rw [mapKeys_mapDelete]
  simp

theorem mapKeys_mapSet_nodup {κ α : Type} [DecidableEq κ] (m : List (κ × α)) (k : κ) (v : α)
    (h : (mapKeys m).Nodup) : (mapKeys (mapSet m k v)).Nodup := by
  have h1 := mapKeys_mapDelete_nodup m k h
  have h2 := not_mem_mapKeys_mapDelete m k
  unfold mapSet
  unfold mapKeys at h1 h2 ⊢
  rw [List.map_cons, List.nodup_cons]
  exact ⟨h2, h1⟩

/-! ## Lemmas on the heap -/

theorem deref_append_old (heap : List SessionStore) (s : SessionStore) (e : Nat)
    (h : e < heap.length) : deref (heap ++ [s]) e = deref heap e := by
  unfold deref
  simp [List.getD_eq_getElem?_getD, List.getElem?_append_left h]

theorem deref_append_new (heap : List SessionStore) (s : SessionStore) :
    deref (heap ++ [s]) heap.length = s := by
  unfold deref
  simp [List.getD_eq_getElem?_getD]

/-! ## The invariant is kept by init, read and destroy -/

theorem Inv_prov : Inv prov := by
  constructor <;> simp [prov, mapGet, mapKeys]

theorem Inv_SessionInit (p : Provider) (sid : String) (now : Time) (hp : Inv p)
    (hfresh : mapGet p.sessions sid = none) : Inv (SessionInit p sid now).2 := by
  have hnew : p.heap.length ∉ p.list := fun h => Nat.lt_irrefl _ (hp.valid _ h)
  constructor
  · show (p.list ++ [p.heap.length]).Nodup
    rw [List.nodup_append]
    refine ⟨hp.nodup, List.nodup_singleton _, ?_⟩
    intro a ha hb
    rw [List.mem_singleton] at hb
    exact hnew (hb ▸ ha)
  · intro e he
    have he' : e ∈ p.list ++ [p.heap.length] := he
    rw [List.mem_append, List.mem_singleton] at he'
    show e < (p.heap ++ [_]).length
    rw [List.length_append, List.length_singleton]
    rcases he' with h | h
    · exact Nat.lt_succ_of_lt (hp.valid e h)
    · omega
  · intro k e hk
    have hk' : mapGet (mapSet p.sessions sid p.heap.length) k = some e := hk
    rw [mapGet_mapSet] at hk'
    show e ∈ p.list ++ [p.heap.length] ∧ (deref (p.heap ++ [_]) e).sid = k
    by_cases h : sid = k
    · rw [if_pos h] at hk'
      have : e = p.heap.length := (Option.some.inj hk').symm
      subst this
      rw [deref_append_new]
      exact ⟨by simp, h⟩
    · rw [if_neg h] at hk'
      obtain ⟨h1, h2⟩ := hp.sound k e hk'
      rw [deref_append_old _ _ _ (hp.valid e h1)]
      exact ⟨List.mem_append_left _ h1, h2⟩
  · intro e he
    have he' : e ∈ p.list ++ [p.heap.length] := he
    rw [List.mem_append, List.mem_singleton] at he'
    show mapGet (mapSet p.sessions sid p.heap.length) (deref (p.heap ++ [_]) e).sid = some e
    rw [mapGet_mapSet]
    rcases he' with h | h
    · rw [deref_append_old _ _ _ (hp.valid e h)]
      have hc := hp.complete e h
      have : ¬ sid = (deref p.heap e).sid := by
        intro hs
        rw [← hs, hfresh] at hc
        exact Option.noConfusion hc
      rw [if_neg this]
      exact hc
    · subst h
      rw [deref_append_new]
      simp
  · exact mapKeys_mapSet_nodup _ _ _ hp.keys

theorem Inv_SessionRead (p : Provider) (sid : String) (now : Time) (hp : Inv p) :
    Inv (SessionRead p sid now).2 := by
  unfold SessionRead
  cases h : mapGet p.sessions sid with
  | some e => exact hp
  | none => exact Inv_SessionInit p sid now hp h

theorem Inv_SessionDestroy (p : Provider) (sid : String) (hp : Inv p) :
    Inv (SessionDestroy p sid).2 := by
  unfold SessionDestroy
  cases h : mapGet p.sessions sid with
  | none => exact hp
  | some e =>
    obtain ⟨hel, hes⟩ := hp.sound sid e h
    constructor
    · exact hp.nodup.erase e
    · intro x hx
      exact hp.valid x (List.mem_of_mem_erase hx)
    · intro k x hk
      have hk' : mapGet (mapDelete p.sessions sid) k = some x := hk
      rw [mapGet_mapDelete] at hk'
      by_cases hs : sid = k
      · rw [if_pos hs] at hk'
        exact Option.noConfusion hk'
      · rw [if_neg hs] at hk'
        obtain ⟨h1, h2⟩ := hp.sound k x hk'
        refine ⟨?_, h2⟩
        show x ∈ p.list.erase e
        have hne : x ≠ e := by
          intro hxe
          rw [hxe, hes] at h2
          exact hs h2
        exact (List.mem_erase_of_ne hne).mpr h1
    · intro x hx
      have hx' : x ∈ p.list.erase e := hx
      have hxl : x ∈ p.list := List.mem_of_mem_erase hx'
      have hne : x ≠ e := fun hxe => (List.Nodup.not_mem_erase hp.nodup) (hxe ▸ hx')
      show mapGet (mapDelete p.sessions sid) (deref p.heap x).sid = some x
      rw [mapGet_mapDelete]
      have hc := hp.complete x hxl
      have : ¬ sid = (deref p.heap x).sid := by
        intro hs
        rw [← hs, h] at hc
        exact hne (Option.some.inj hc).symm
      rw [if_neg this]
      exact hc
    · exact mapKeys_mapDelete_nodup _ _ hp.keys

/-! ## The bijection between the lookup map and the recency list -/

theorem listSids_nodup (p : Provider) (hp : Inv p) : (listSids p).Nodup := by
  unfold listSids
  refine List.Nodup.map_on ?_ hp.nodup
  intro x hx y hy hxy
  have h1 := hp.complete x hx
  have h2 := hp.complete y hy
  rw [hxy, h2] at h1
  exact (Option.some.inj h1).symm

theorem mem_mapKeys_iff_mem_listSids (p : Provider) (hp : Inv p) (sid : String) :
    sid ∈ mapKeys p.sessions ↔ sid ∈ listSids p := by
  constructor
  · intro h
    cases hg : mapGet p.sessions sid with
    | none => exact absurd h ((mapGet_eq_none_iff _ _).mp hg)
    | some e =>
      obtain ⟨h1, h2⟩ := hp.sound sid e hg
      exact List.mem_map.mpr ⟨e, h1, h2⟩
  · intro h
    obtain ⟨e, h1, h2⟩ := List.mem_map.mp h
    have hc := hp.complete e h1
    rw [h2] at hc
    by_contra hn
    rw [(mapGet_eq_none_iff _ _).mpr hn] at hc
    exact Option.noConfusion hc

theorem BijectionCount_of_Inv (p : Provider) (hp : Inv p) : BijectionCount p := by
  refine ⟨?_, hp.keys, ?_⟩
  · intro sid hsid
    exact List.count_eq_one_of_mem (listSids_nodup p hp)
      ((mem_mapKeys_iff_mem_listSids p hp sid).mp hsid)
  · have hperm : (mapKeys p.sessions).Perm (listSids p) :=
      (List.perm_ext_iff_of_nodup hp.keys (listSids_nodup p hp)).mpr
        (mem_mapKeys_iff_mem_listSids p hp)
    rw [hperm.length_eq]
    simp [listSids]

theorem runCalls_init_read_destroy (calls : List Call) :
    ∀ p : Provider, Inv p → (∀ c ∈ calls, c.isInitReadDestroy = true) →
      initsFresh calls p = true → ∃ q, runCalls calls p = some q ∧ Inv q := by
  induction calls with
  | nil => intro p hp _ _; exact ⟨p, rfl, hp⟩
  | cons c rest ih =>
    intro p hp hkind hfresh
    have hc := hkind c (List.mem_cons_self _ _)
    have hrest : ∀ d ∈ rest, d.isInitReadDestroy = true :=
      fun d hd => hkind d (List.mem_cons_of_mem _ hd)
    cases c with
    | SessionInit sid now =>
      simp only [initsFresh, Call.apply, Bool.and_eq_true, Option.isNone_iff_eq_none] at hfresh
      exact ih _ (Inv_SessionInit p sid now hp hfresh.1) hrest hfresh.2
    | SessionRead sid now =>
      simp only [initsFresh, Call.apply, Bool.true_and] at hfresh
      exact ih _ (Inv_SessionRead p sid now hp) hrest hfresh
    | SessionDestroy sid =>
      simp only [initsFresh, Call.apply, Bool.true_and] at hfresh
      exact ih _ (Inv_SessionDestroy p sid hp) hrest hfresh
    | SessionGC _ _ => exact absurd hc (by simp [Call.isInitReadDestroy])
    | SessionUpdate _ _ => exact absurd hc (by simp [Call.isInitReadDestroy])
    | Set _ _ _ _ => exact absurd hc (by simp [Call.isInitReadDestroy])
    | Get _ _ _ => exact absurd hc (by simp [Call.isInitReadDestroy])
    | Delete _ _ _ => exact absurd hc (by simp [Call.isInitReadDestroy])

/-! ## Reading a session -/

theorem SessionRead_of_mapGet (p : Provider) (sid : String) (now : Time) (element : Nat)
    (h : mapGet p.sessions sid = some element) :
    SessionRead p sid now = ((element, none), p) := by
  unfold SessionRead
  rw [h]

/-! ## Well-formedness is kept by every call -/

theorem WF_of_Inv (p : Provider) (hp : Inv p) : WF p :=
  ⟨hp.nodup, hp.valid, hp.sound, hp.keys⟩

theorem WF_prov : WF prov := WF_of_Inv prov Inv_prov

theorem deref_modify_sid (heap : List SessionStore) (f : SessionStore → SessionStore)
    (hf : ∀ s, (f s).sid = s.sid) (i j : Nat) :
    (deref (heap.modify f i) j).sid = (deref heap j).sid := by
  unfold deref
  rw [List.getD_eq_getElem?_getD, List.getD_eq_getElem?_getD, List.getElem?_modify]
  cases h : heap[j]? with
  | none => simp
  | some s =>
    by_cases hij : i = j
    · simp [hij, hf]
    · simp [hij]

theorem WF_modify (p : Provider) (f : SessionStore → SessionStore)
    (hf : ∀ s, (f s).sid = s.sid) (i : Nat) (hp : WF p) :
    WF { p with heap := p.heap.modify f i } := by
  refine ⟨hp.nodup, ?_, ?_, hp.keys⟩
  · intro e he
    show e < (p.heap.modify f i).length
    rw [List.length_modify]
    exact hp.valid e he
  · intro sid e h
    obtain ⟨h1, h2⟩ := hp.sound sid e h
    refine ⟨h1, ?_⟩
    show (deref (p.heap.modify f i) e).sid = sid
    rw [deref_modify_sid _ _ hf]
    exact h2

theorem mem_MoveToFront (l : List Nat) (e x : Nat) : x ∈ MoveToFront l e ↔ x ∈ l := by
  unfold MoveToFront
  by_cases h : e ∈ l
  · rw [if_pos h, List.mem_cons]
    constructor
    · rintro (hx | hx)
      · exact hx ▸ h
      · exact List.mem_of_mem_erase hx
    · intro hx
      by_cases hxe : x = e
      · exact Or.inl hxe
      · exact Or.inr ((List.mem_erase_of_ne hxe).mpr hx)
  · rw [if_neg h]

theorem nodup_MoveToFront (l : List Nat) (e : Nat) (h : l.Nodup) : (MoveToFront l e).Nodup := by
  unfold MoveToFront
  by_cases he : e ∈ l
  · rw [if_pos he, List.nodup_cons]
    exact ⟨List.Nodup.not_mem_erase h, h.erase e⟩
  · rw [if_neg he]
    exact h

theorem WF_SessionInit (p : Provider) (sid : String) (now : Time) (hp : WF p) :
    WF (SessionInit p sid now).2 := by
  have hnew : p.heap.length ∉ p.list := fun h => Nat.lt_irrefl _ (hp.valid _ h)
  refine ⟨?_, ?_, ?_, mapKeys_mapSet_nodup _ _ _ hp.keys⟩
  · show (p.list ++ [p.heap.length]).Nodup
    rw [List.nodup_append]
    refine ⟨hp.nodup, List.nodup_singleton _, ?_⟩
    intro a ha hb
    rw [List.mem_singleton] at hb
    exact hnew (hb ▸ ha)
  · intro e he
    have he' : e ∈ p.list ++ [p.heap.length] := he
    rw [List.mem_append, List.mem_singleton] at he'
    show e < (p.heap ++ [_]).length
    rw [List.length_append, List.length_singleton]
    rcases he' with h | h
    · exact Nat.lt_succ_of_lt (hp.valid e h)
    · omega
  · intro k e hk
    have hk' : mapGet (mapSet p.sessions sid p.heap.length) k = some e := hk
    rw [mapGet_mapSet] at hk'
    show e ∈ p.list ++ [p.heap.length] ∧ (deref (p.heap ++ [_]) e).sid = k
    by_cases h : sid = k
    · rw [if_pos h] at hk'
      have : e = p.heap.length := (Option.some.inj hk').symm
      subst this
      rw [deref_append_new]
      exact ⟨by simp, h⟩
    · rw [if_neg h] at hk'
      obtain ⟨h1, h2⟩ := hp.sound k e hk'
      rw [deref_append_old _ _ _ (hp.valid e h1)]
      exact ⟨List.mem_append_left _ h1, h2⟩

theorem WF_SessionRead (p : Provider) (sid : String) (now : Time) (hp : WF p) :
    WF (SessionRead p sid now).2 := by
  unfold SessionRead
  cases h : mapGet p.sessions sid with
  | some e => exact hp
  | none => exact WF_SessionInit p sid now hp

theorem WF_remove (p : Provider) (e : Nat) (hp : WF p) :
    WF { p with list := Remove p.list e, sessions := mapDelete p.sessions (deref p.heap e).sid } := by
  refine ⟨hp.nodup.erase e, ?_, ?_, mapKeys_mapDelete_nodup _ _ hp.keys⟩
  · intro x hx
    exact hp.valid x (List.mem_of_mem_erase hx)
  · intro k x hk
    have hk' : mapGet (mapDelete p.sessions (deref p.heap e).sid) k = some x := hk
    rw [mapGet_mapDelete] at hk'
    by_cases hs : (deref p.heap e).sid = k
    · rw [if_pos hs] at hk'
      exact Option.noConfusion hk'
    · rw [if_neg hs] at hk'
      obtain ⟨h1, h2⟩ := hp.sound k x hk'
      refine ⟨?_, h2⟩
      show x ∈ p.list.erase e
      have hne : x ≠ e := by
        intro hxe
        rw [hxe] at h2
        exact hs h2
      exact (List.mem_erase_of_ne hne).mpr h1

theorem WF_SessionDestroy (p : Provider) (sid : String) (hp : WF p) :
    WF (SessionDestroy p sid).2 := by
  unfold SessionDestroy
  cases h : mapGet p.sessions sid with
  | none => exact hp
  | some e =>
    have hes := (hp.sound sid e h).2
    have := WF_remove p e hp
    rw [hes] at this
    exact this

theorem WF_SessionUpdate (p : Provider) (sid : String) (now : Time) (hp : WF p) :
    WF (SessionUpdate p sid now).2 := by
  unfold SessionUpdate
  cases h : mapGet p.sessions sid with
  | none => exact hp
  | some e =>
    have h1 := WF_modify p (fun s => { s with timeAccessed := now }) (fun _ => rfl) e hp
    refine ⟨nodup_MoveToFront _ _ hp.nodup, ?_, ?_, hp.keys⟩
    · intro x hx
      exact h1.valid x ((mem_MoveToFront _ _ _).mp hx)
    · intro k x hk
      obtain ⟨h2, h3⟩ := h1.sound k x hk
      exact ⟨(mem_MoveToFront _ _ _).mpr h2, h3⟩

theorem WF_SessionGCLoop (maxLifeTime : Int) (now : Time) (fuel : Nat) :
    ∀ p q : Provider, WF p → SessionGCLoop maxLifeTime now fuel p = some q → WF q := by
  induction fuel with
  | zero => intro p q _ h; simp [SessionGCLoop] at h
  | succ n ih =>
    intro p q hp h
    unfold SessionGCLoop at h
    cases hb : Back p.list with
    | none =>
      rw [hb] at h
      exact (Option.some.inj h) ▸ hp
    | some e =>
      rw [hb] at h
      simp only at h
      split at h
      · exact ih _ q (WF_remove p e hp) h
      · exact (Option.some.inj h) ▸ hp

theorem WF_Set (p : Provider) (st : Nat) (key value : Iface) (now : Time) (hp : WF p) :
    WF (SessionStore.Set p st key value now).2 :=
  WF_SessionUpdate _ _ now
    (WF_modify p (fun s => { s with value := mapSet s.value key value }) (fun _ => rfl) st hp)

theorem WF_Get (p : Provider) (st : Nat) (key : Iface) (now : Time) (hp : WF p) :
    WF (SessionStore.Get p st key now).2 := by
  have h1 := WF_SessionUpdate p (deref p.heap st).sid now hp
  unfold SessionStore.Get
  simp only
  split <;> exact h1

theorem WF_Delete (p : Provider) (st : Nat) (key : Iface) (now : Time) (hp : WF p) :
    WF (SessionStore.Delete p st key now).2 :=
  WF_SessionUpdate _ _ now
    (WF_modify p (fun s => { s with value := mapDelete s.value key }) (fun _ => rfl) st hp)

theorem WF_Call_apply (c : Call) (p q : Provider) (hp : WF p) (h : c.apply p = some q) :
    WF q := by
  cases c with
  | SessionInit sid now => exact (Option.some.inj h) ▸ WF_SessionInit p sid now hp
  | SessionRead sid now => exact (Option.some.inj h) ▸ WF_SessionRead p sid now hp
  | SessionDestroy sid => exact (Option.some.inj h) ▸ WF_SessionDestroy p sid hp
  | SessionGC maxLifeTime now => exact WF_SessionGCLoop maxLifeTime now _ p q hp h
  | SessionUpdate sid now => exact (Option.some.inj h) ▸ WF_SessionUpdate p sid now hp
  | Set st key value now => exact (Option.some.inj h) ▸ WF_Set p st key value now hp
  | Get st key now => exact (Option.some.inj h) ▸ WF_Get p st key now hp
  | Delete st key now => exact (Option.some.inj h) ▸ WF_Delete p st key now hp

theorem WF_runCalls (calls : List Call) :
    ∀ p q : Provider, WF p → runCalls calls p = some q → WF q := by
  induction calls with
  | nil => intro p q hp h; exact (Option.some.inj h) ▸ hp
  | cons c rest ih =>
    intro p q hp h
    unfold runCalls at h
    cases hc : c.apply p with
    | none => rw [hc] at h; exact Option.noConfusion h
    | some p1 =>
      rw [hc] at h
      exact ih p1 q (WF_Call_apply c p p1 hp hc) h

/-! ## Promotion by SessionUpdate -/

theorem filter_ne_erase (l : List Nat) (e : Nat) :
    (l.erase e).filter (fun x => decide (x ≠ e)) = l.filter (fun x => decide (x ≠ e)) := by
  induction l with
  | nil => rfl
  | cons a t ih =>
    by_cases h : a = e
    · subst h
      simp [List.filter_cons]
    · have h' : (a == e) = false := by simpa using h
      rw [List.erase_cons, h']
      simp only [Bool.false_eq_true, if_false, List.filter_cons, ih]

theorem filter_ne_MoveToFront (l : List Nat) (e : Nat) :
    (MoveToFront l e).filter (fun x => decide (x ≠ e)) = l.filter (fun x => decide (x ≠ e)) := by
  unfold MoveToFront
  by_cases h : e ∈ l
  · rw [if_pos h, List.filter_cons]
    simp only [ne_eq, not_true_eq_false, decide_False, Bool.false_eq_true, if_false]
    exact filter_ne_erase l e
  · rw [if_neg h]

theorem deref_setTimeAccessed (heap : List SessionStore) (e : Nat) (now : Time)
    (h : e < heap.length) : (deref (setTimeAccessed heap e now) e).timeAccessed = now := by
  unfold deref setTimeAccessed
  rw [List.getD_eq_getElem?_getD, List.getElem?_modify_eq, List.getElem?_eq_getElem h]
  rfl

theorem SessionUpdate_promote (p : Provider) (hp : WF p) (sid : String) (now : Time)
    (element : Nat) (h : mapGet p.sessions sid = some element) :
    (SessionUpdate p sid now).2.sessions = p.sessions ∧
    (∀ st, (deref (SessionUpdate p sid now).2.heap st).sid = (deref p.heap st).sid) ∧
    Front (SessionUpdate p sid now).2.list = some element ∧
    (deref (SessionUpdate p sid now).2.heap element).timeAccessed = now ∧
    (SessionUpdate p sid now).2.list.filter (fun e => decide (e ≠ element))
      = p.list.filter (fun e => decide (e ≠ element)) := by
  obtain ⟨hmem, _⟩ := hp.sound sid element h
  unfold SessionUpdate
  rw [h]
  refine ⟨rfl, ?_, ?_, ?_, ?_⟩
  · intro st
    exact deref_modify_sid p.heap (fun s => { s with timeAccessed := now }) (fun _ => rfl)
      element st
  · show Front (MoveToFront p.list element) = some element
    unfold MoveToFront
    rw [if_pos hmem]
    rfl
  · exact deref_setTimeAccessed _ _ _ (hp.valid element hmem)
  · exact filter_ne_MoveToFront _ _

theorem WF_storeABC : WF storeABC :=
  WF_SessionInit _ _ _ (WF_SessionInit _ _ _ (WF_SessionInit _ _ _ WF_prov))

/-! ## Escaping and unescaping -/

theorem hex_digit (n : Nat) (h : n < 16) :
    ishex (upperhex.getD n '0') = true ∧ unhex (upperhex.getD n '0') = n := by
  revert n
  decide

theorem not_shouldEscape_ne (c : Char) (h : shouldEscape c = false) : c ≠ '%' ∧ c ≠ '+' := by
  constructor
  · intro hc; subst hc; revert h; decide
  · intro hc; subst hc; revert h; decide

theorem unescapeChars_cons_of_ne (c : Char) (rest : List Char) (h : c ≠ '%') :
    unescapeChars (c :: rest) =
      if c = '+' then (unescapeChars rest).map (fun t => ' ' :: t)
      else (unescapeChars rest).map (fun t => c :: t) := by
  match rest with
  | [] => simp [unescapeChars, h]
  | [_] => simp [unescapeChars, h]
  | _ :: _ :: _ => simp [unescapeChars, h]

theorem unescapeChars_percent (h l : Char) (rest : List Char) :
    unescapeChars ('%' :: h :: l :: rest) =
      if ishex h && ishex l then
        (unescapeChars rest).map (fun t => Char.ofNat (unhex h * 16 + unhex l) :: t)
      else none := by
  simp [unescapeChars]

theorem unescapeChars_escapeChar (c : Char) (rest : List Char) (hc : c.toNat < 256) :
    unescapeChars (escapeChar c ++ rest) = (unescapeChars rest).map (fun t => c :: t) := by
  unfold escapeChar
  by_cases hs : shouldEscape c = true
  · rw [if_pos hs]
    by_cases hsp : c = ' '
    · rw [if_pos hsp, hsp]
      show unescapeChars ('+' :: rest) = _
      rw [unescapeChars_cons_of_ne _ _ (by decide), if_pos rfl]
    · rw [if_neg hsp]
      obtain ⟨h1, h2⟩ := hex_digit (c.toNat / 16 % 16) (Nat.mod_lt _ (by decide))
      obtain ⟨h3, h4⟩ := hex_digit (c.toNat % 16) (Nat.mod_lt _ (by decide))
      show unescapeChars ('%' :: upperhex.getD (c.toNat / 16 % 16) '0' ::
        upperhex.getD (c.toNat % 16) '0' :: rest) = _
      rw [unescapeChars_percent, h1, h3, h2, h4]
      have : c.toNat / 16 % 16 * 16 + c.toNat % 16 = c.toNat := by omega
      rw [this, Char.ofNat_toNat]
      rfl
  · have hs' : shouldEscape c = false := by simpa using hs
    obtain ⟨h1, h2⟩ := not_shouldEscape_ne c hs'
    rw [if_neg hs]
    show unescapeChars (c :: rest) = _
    rw [unescapeChars_cons_of_ne _ _ h1, if_neg h2]

theorem unescapeChars_flatMap_escapeChar (l : List Char) (hl : ∀ c ∈ l, c.toNat < 256) :
    unescapeChars (l.flatMap escapeChar) = some l := by
  induction l with
  | nil => rfl
  | cons c rest ih =>
    rw [List.flatMap_cons, unescapeChars_escapeChar c _ (hl c (List.mem_cons_self _ _)),
      ih (fun d hd => hl d (List.mem_cons_of_mem _ hd))]
    rfl

theorem QueryUnescape_QueryEscape (s : String) (hs : ∀ c ∈ s.toList, c.toNat < 256) :
    QueryUnescape (QueryEscape s) = some s := by
  unfold QueryUnescape QueryEscape
  show Option.map String.mk (unescapeChars (s.toList.flatMap escapeChar)) = some s
  rw [unescapeChars_flatMap_escapeChar _ hs]
  rfl

theorem escapeChar_ne_nil (c : Char) : escapeChar c ≠ [] := by
  unfold escapeChar
  split
  · split <;> simp
  · simp

theorem QueryEscape_ne_empty (s : String) (hs : s ≠ "") : QueryEscape s ≠ "" := by
  obtain ⟨l⟩ := s
  cases l with
  | nil => exact absurd rfl hs
  | cons c rest =>
    intro h
    have h2 : (c :: rest).flatMap escapeChar = [] := congrArg String.data h
    rw [List.flatMap_cons, List.append_eq_nil] at h2
    exact escapeChar_ne_nil c h2.1

/-! ## Identifiers from the generator -/

theorem encodeChar_toNat (val : Nat) : (encodeChar val).toNat < 256 := by
  have h : ∀ i, i < 64 → (encodeURL.getD i 'A').toNat < 256 := by decide
  exact h _ (Nat.mod_lt _ (by decide))

theorem encodeChars_toNat : ∀ (src : List Nat), ∀ c ∈ encodeChars src, c.toNat < 256
  | [] => by simp [encodeChars]
  | [a] => by
    intro c hc
    simp only [encodeChars, List.mem_cons, List.mem_singleton, List.not_mem_nil, or_false] at hc
    rcases hc with h | h | h | h <;> subst h <;> first | exact encodeChar_toNat _ | decide
  | [a, b] => by
    intro c hc
    simp only [encodeChars, List.mem_cons, List.mem_singleton, List.not_mem_nil, or_false] at hc
    rcases hc with h | h | h | h <;> subst h <;> first | exact encodeChar_toNat _ | decide
  | a :: b :: c :: rest => by
    intro d hd
    simp only [encodeChars, List.mem_cons] at hd
    rcases hd with h | h | h | h | h
    · subst h; exact encodeChar_toNat _
    · subst h; exact encodeChar_toNat _
    · subst h; exact encodeChar_toNat _
    · subst h; exact encodeChar_toNat _
    · exact encodeChars_toNat rest d h

theorem EncodeToString_ne_empty (src : List Nat) (h : src ≠ []) : EncodeToString src ≠ "" := by
  intro he
  have h2 : encodeChars src = [] := congrArg String.data he
  match src, h with
  | [a], _ => simp [encodeChars] at h2
  | [a, b], _ => simp [encodeChars] at h2
  | a :: b :: c :: rest, _ => simp [encodeChars] at h2

/-! ## Escaped values as cookie values -/

theorem not_shouldEscape_toNat (c : Char) (h : shouldEscape c = false) :
    validCookieValueByte c = true ∧ c.toNat ≠ 32 ∧ c.toNat ≠ 44 := by
  have hsmall : ∀ n, n < 128 → shouldEscape (Char.ofNat n) = false →
      validCookieValueByte (Char.ofNat n) = true ∧ (Char.ofNat n).toNat ≠ 32 ∧
        (Char.ofNat n).toNat ≠ 44 := by decide
  by_cases hc : c.toNat < 128
  · have := hsmall c.toNat hc (by rw [Char.ofNat_toNat]; exact h)
    rw [Char.ofNat_toNat] at this
    exact this
  · exfalso
    have hge : 128 ≤ c.val.toBitVec.toNat := Nat.le_of_not_lt hc
    simp only [shouldEscape, Char.isAlphanum, Char.isAlpha, Char.isUpper, Char.isLower,
      Char.isDigit, Bool.not_eq_false', Bool.or_eq_true, Bool.and_eq_true, decide_eq_true_eq,
      UInt32.le_def, BitVec.le_def] at h
    rcases h with (((((h | h) | h) | h) | h) | h) | h
    · have := h.2; simp at this; omega
    · have := h.2; simp at this; omega
    · have := h.2; simp at this; omega
    · subst h; revert hge; decide
    · subst h; revert hge; decide
    · subst h; revert hge; decide
    · subst h; revert hge; decide

theorem escapeChar_valid_value (c d : Char) (h : d ∈ escapeChar c) :
    validCookieValueByte d = true ∧ d.toNat ≠ 32 ∧ d.toNat ≠ 44 := by
  have hhex : ∀ n, n < 16 → validCookieValueByte (upperhex.getD n '0') = true ∧
      (upperhex.getD n '0').toNat ≠ 32 ∧ (upperhex.getD n '0').toNat ≠ 44 := by decide
  unfold escapeChar at h
  by_cases hs : shouldEscape c = true
  · rw [if_pos hs] at h
    by_cases hsp : c = ' '
    · rw [if_pos hsp, List.mem_singleton] at h
      subst h
      decide
    · rw [if_neg hsp] at h
      simp only [List.mem_cons, List.mem_singleton, List.not_mem_nil, or_false] at h
      rcases h with h | h | h
      · subst h; decide
      · rw [h]; exact hhex _ (Nat.mod_lt _ (by decide))
      · rw [h]; exact hhex _ (Nat.mod_lt _ (by decide))
  · rw [if_neg hs, List.mem_singleton] at h
    subst h
    exact not_shouldEscape_toNat d (by simpa using hs)

theorem QueryEscape_valid_value (s : String) :
    ∀ d ∈ (QueryEscape s).toList,
      validCookieValueByte d = true ∧ d.toNat ≠ 32 ∧ d.toNat ≠ 44 := by
  intro d hd
  have hd' : d ∈ s.toList.flatMap escapeChar := hd
  rw [List.mem_flatMap] at hd'
  obtain ⟨c, _, hc⟩ := hd'
  exact escapeChar_valid_value c d hc

/-! ## Starting a session -/

theorem SetCookie_valid (w : List Cookie) (cookie : Cookie)
    (h : isCookieNameValid cookie.Name = true) : SetCookie w cookie = w ++ [cookie] := by
  unfold SetCookie
  rw [if_pos h]

theorem SetCookie_invalid (w : List Cookie) (cookie : Cookie)
    (h : isCookieNameValid cookie.Name = false) : SetCookie w cookie = w := by
  unfold SetCookie
  rw [h]
  rfl

theorem SessionStart_create (manager : Manager) (p : Provider) (w : List Cookie) (r : Request)
    (rand : Option (List Nat)) (now : Time)
    (hr : r.Cookie manager.cookieName = none ∨ r.Cookie manager.cookieName = some "") :
    Manager.SessionStart manager p w r rand now =
      ((SessionInit p (Manager.sessionId rand) now).1.1,
       (SessionInit p (Manager.sessionId rand) now).2,
       SetCookie w { Name := manager.cookieName,
                     Value := QueryEscape (Manager.sessionId rand),
                     Path := "/", HttpOnly := true, Expires := none,
                     MaxAge := manager.maxLifeTime }) := by
  unfold Manager.SessionStart
  rcases hr with h | h <;> simp [h]

theorem SessionStart_existing (manager : Manager) (p : Provider) (w : List Cookie)
    (r : Request) (rand : Option (List Nat)) (now : Time) (value : String)
    (hr : r.Cookie manager.cookieName = some value) (hv : value ≠ "") :
    Manager.SessionStart manager p w r rand now =
      ((SessionRead p ((QueryUnescape value).getD "") now).1.1,
       (SessionRead p ((QueryUnescape value).getD "") now).2, w) := by
  unfold Manager.SessionStart
  simp [hr, hv]

theorem mapGet_SessionInit (p : Provider) (sid : String) (now : Time) :
    mapGet (SessionInit p sid now).2.sessions sid = some (SessionInit p sid now).1.1 := by
  show mapGet (mapSet p.sessions sid p.heap.length) sid = some p.heap.length
  rw [mapGet_mapSet, if_pos rfl]

/-! ## Every generated identifier is changed by escaping -/

theorem eq_not_mem_escapeChar (c : Char) : '=' ∉ escapeChar c := by
  have hhex : ∀ n, n < 16 → upperhex.getD n '0' ≠ '=' := by decide
  unfold escapeChar
  by_cases hs : shouldEscape c = true
  · rw [if_pos hs]
    by_cases hsp : c = ' '
    · rw [if_pos hsp]; decide
    · rw [if_neg hsp]
      intro h
      simp only [List.mem_cons, List.mem_singleton, List.not_mem_nil, or_false] at h
      rcases h with h | h | h
      · exact absurd h (by decide)
      · exact hhex _ (Nat.mod_lt _ (by decide)) h.symm
      · exact hhex _ (Nat.mod_lt _ (by decide)) h.symm
  · rw [if_neg hs]
    intro h
    rw [List.mem_singleton] at h
    subst h
    exact hs (by decide)

theorem eq_mem_encodeChars : ∀ (src : List Nat), src.length % 3 ≠ 0 → '=' ∈ encodeChars src
  | [], h => absurd rfl h
  | [_], _ => by simp [encodeChars]
  | [_, _], _ => by simp [encodeChars]
  | _ :: _ :: _ :: rest, h => by
    have hrest : rest.length % 3 ≠ 0 := by
      simp only [List.length_cons] at h
      omega
    simp only [encodeChars, List.mem_cons]
    exact Or.inr (Or.inr (Or.inr (Or.inr (eq_mem_encodeChars rest hrest))))

theorem QueryEscape_EncodeToString_ne (b : List Nat) (hb : b.length = 32) :
    QueryEscape (EncodeToString b) ≠ EncodeToString b := by
  intro h
  have h1 : '=' ∈ encodeChars b := eq_mem_encodeChars b (by rw [hb]; decide)
  have h2 : (encodeChars b).flatMap escapeChar = encodeChars b := congrArg String.data h
  rw [← h2, List.mem_flatMap] at h1
  obtain ⟨c, _, hc⟩ := h1
  exact eq_not_mem_escapeChar c hc

theorem manager_destroy_never_removes (manager : Manager) (p : Provider) (w : List Cookie)
    (r r2 : Request) (b : List Nat) (now now2 : Time) (hb : b.length = 32)
    (hr : r.Cookie manager.cookieName = none ∨ r.Cookie manager.cookieName = some "")
    (hr2 : r2.Cookie manager.cookieName = some (QueryEscape (Manager.sessionId (some b)))) :
    mapGet (Manager.SessionDestroy manager
        (Manager.SessionStart manager p w r (some b) now).2.1
        (Manager.SessionStart manager p w r (some b) now).2.2 r2 now2).1.sessions
      (Manager.sessionId (some b))
      = some (Manager.SessionStart manager p w r (some b) now).1 := by
  have hsid : Manager.sessionId (some b) = EncodeToString b := rfl
  have hne : QueryEscape (EncodeToString b) ≠ EncodeToString b :=
    QueryEscape_EncodeToString_ne b hb
  have hv : QueryEscape (EncodeToString b) ≠ "" := by
    refine QueryEscape_ne_empty _ (EncodeToString_ne_empty b ?_)
    intro h; rw [h] at hb; exact absurd hb (by decide)
  rw [SessionStart_create manager p w r (some b) now hr]
  rw [hsid] at hr2 ⊢
  unfold Manager.SessionDestroy
  simp only [hr2, hv, if_false]
  unfold SessionDestroy
  split
  · show mapGet (mapDelete _ _) _ = _
    rw [mapGet_mapDelete, if_neg hne]
    exact mapGet_SessionInit p _ now
  · exact mapGet_SessionInit p _ now

/-! ## Destroying a session -/

theorem SessionDestroy_of_absent (p : Provider) (sid : String)
    (h : mapGet p.sessions sid = none) : SessionDestroy p sid = (none, p) := by
  unfold SessionDestroy
  rw [h]

theorem mapGet_SessionDestroy_self (p : Provider) (sid : String) :
    mapGet (SessionDestroy p sid).2.sessions sid = none := by
  unfold SessionDestroy
  cases h : mapGet p.sessions sid with
  | none => exact h
  | some e =>
    show mapGet (mapDelete p.sessions sid) sid = none
    rw [mapGet_mapDelete, if_pos rfl]

theorem not_mem_list_SessionDestroy (p : Provider) (sid : String) (hp : WF p) (e : Nat)
    (h : mapGet p.sessions sid = some e) : e ∉ (SessionDestroy p sid).2.list := by
  unfold SessionDestroy
  rw [h]
  exact List.Nodup.not_mem_erase hp.nodup

theorem list_SessionDestroy_of_present (p : Provider) (sid : String) (hp : WF p) (e : Nat)
    (h : mapGet p.sessions sid = some e) :
    (SessionDestroy p sid).2.list = p.list.filter (fun x => decide (x ≠ e)) := by
  unfold SessionDestroy
  rw [h]
  show p.list.erase e = _
  rw [List.Nodup.erase_eq_filter hp.nodup]
  apply List.filter_congr
  intro x _
  by_cases hx : x = e <;> simp [hx]

theorem list_SessionDestroy (p : Provider) (sid : String) (hp : WF p)
    (hcar : ∀ e ∈ p.list, (deref p.heap e).sid = sid → mapGet p.sessions sid = some e) :
    (SessionDestroy p sid).2.list
      = p.list.filter (fun e => decide ((deref p.heap e).sid ≠ sid)) := by
  cases h : mapGet p.sessions sid with
  | none =>
    rw [SessionDestroy_of_absent p sid h]
    symm
    rw [List.filter_eq_self]
    intro e he
    simp only [ne_eq, decide_not, Bool.not_eq_eq_eq_not, Bool.not_true, decide_eq_false_iff_not]
    intro hs
    have := hcar e he hs
    rw [h] at this
    exact Option.noConfusion this
  | some x =>
    rw [list_SessionDestroy_of_present p sid hp x h]
    apply List.filter_congr
    intro e he
    have hx := (hp.sound sid x h).2
    by_cases hex : e = x
    · subst hex
      simp [hx]
    · have : (deref p.heap e).sid ≠ sid := by
        intro hs
        have hm := hcar e he hs
        rw [h] at hm
        exact hex (Option.some.inj hm).symm
      simp [hex, this]

theorem heap_SessionDestroy (p : Provider) (sid : String) :
    (SessionDestroy p sid).2.heap = p.heap := by
  unfold SessionDestroy
  split <;> rfl

theorem listSids_SessionDestroy (p : Provider) (sid : String) (hp : WF p)
    (hcar : ∀ e ∈ p.list, (deref p.heap e).sid = sid → mapGet p.sessions sid = some e) :
    sid ∉ listSids (SessionDestroy p sid).2 := by
  unfold listSids
  rw [list_SessionDestroy p sid hp hcar, heap_SessionDestroy]
  intro h
  obtain ⟨e, he, hs⟩ := List.mem_map.mp h
  have := (List.mem_filter.mp he).2
  simp only [ne_eq, decide_not, Bool.not_eq_eq_eq_not, Bool.not_true,
    decide_eq_false_iff_not] at this
  exact this hs

theorem Inv_storeABC : Inv storeABC :=
  Inv_SessionInit _ _ _ (Inv_SessionInit _ _ _ (Inv_SessionInit _ _ _ Inv_prov rfl)
    (by decide)) (by decide)

/-! ## Where SessionInit links the new element -/

theorem SessionInit_links_at_back (p : Provider) (sid : String) (now : Time) :
    deref (SessionInit p sid now).2.heap (SessionInit p sid now).1.1
      = { sid := sid, timeAccessed := now, value := [] } ∧
    mapGet (SessionInit p sid now).2.sessions sid = some (SessionInit p sid now).1.1 ∧
    Back (SessionInit p sid now).2.list = some (SessionInit p sid now).1.1 ∧
    (p.list ≠ [] → Front (SessionInit p sid now).2.list = Front p.list) := by
  refine ⟨deref_append_new _ _, mapGet_SessionInit p sid now, ?_, ?_⟩
  · show (p.list ++ [p.heap.length]).getLast? = some p.heap.length
    simp
  · intro h
    show (p.list ++ [p.heap.length]).head? = p.list.head?
    cases hl : p.list with
    | nil => exact absurd hl h
    | cons a t => rfl

/-! ## The sweep -/

theorem SessionGCLoop_succ (maxLifeTime : Int) (now : Time) (fuel : Nat) (p : Provider) :
    SessionGCLoop maxLifeTime now (fuel + 1) p =
      match Back p.list with
      | none => some p
      | some element =>
        if expired maxLifeTime now (deref p.heap element) = true then
          SessionGCLoop maxLifeTime now fuel
            { p with list := Remove p.list element,
                     sessions := mapDelete p.sessions (deref p.heap element).sid }
        else some p := by
  rw [SessionGCLoop]
  cases Back p.list with
  | none => rfl
  | some e => simp only [expired, decide_eq_true_eq]

theorem SessionGCLoop_stop (maxLifeTime : Int) (now : Time) (fuel : Nat) (p : Provider)
    (h : ∀ e, Back p.list = some e → expired maxLifeTime now (deref p.heap e) = false) :
    SessionGCLoop maxLifeTime now (fuel + 1) p = some p := by
  rw [SessionGCLoop_succ]
  cases hb : Back p.list with
  | none => rfl
  | some e => simp [h e hb]

theorem Remove_back (ys : List Nat) (e : Nat) (h : (ys ++ [e]).Nodup) :
    Remove (ys ++ [e]) e = ys := by
  have hne : e ∉ ys := by
    intro he
    rw [List.nodup_append] at h
    exact h.2.2 he (List.mem_singleton_self e)
  unfold Remove
  rw [List.erase_append_right _ hne]
  simp

theorem SessionGCLoop_total (maxLifeTime : Int) (now : Time) (fuel : Nat) :
    ∀ p : Provider, p.list.length < fuel →
      ∃ q, SessionGCLoop maxLifeTime now fuel p = some q := by
  induction fuel with
  | zero => intro p h; exact absurd h (Nat.not_lt_zero _)
  | succ n ih =>
    intro p h
    rw [SessionGCLoop_succ]
    cases hb : Back p.list with
    | none => exact ⟨p, rfl⟩
    | some e =>
      by_cases hx : expired maxLifeTime now (deref p.heap e) = true
      · simp only [hx, if_true]
        apply ih
        have hmem : e ∈ p.list := List.mem_of_getLast?_eq_some hb
        show (p.list.erase e).length < n
        rw [List.length_erase_of_mem hmem]
        have : 0 < p.list.length := List.length_pos_of_mem hmem
        omega
      · simp only [hx]
        exact ⟨p, rfl⟩

theorem SessionGCLoop_tail (maxLifeTime : Int) (now : Time) (fuel : Nat) :
    ∀ p : Provider, p.list.Nodup → p.list.length < fuel →
      ∃ q removed, SessionGCLoop maxLifeTime now fuel p = some q ∧
        q.heap = p.heap ∧
        p.list = q.list ++ removed ∧
        (∀ e ∈ removed, expired maxLifeTime now (deref p.heap e) = true) ∧
        (∀ e, Back q.list = some e → expired maxLifeTime now (deref p.heap e) = false) ∧
        q.list = p.list.rdropWhile (fun e => expired maxLifeTime now (deref p.heap e)) := by
  induction fuel with
  | zero => intro p _ h; exact absurd h (Nat.not_lt_zero _)
  | succ n ih =>
    intro p hnd h
    rw [SessionGCLoop_succ]
    cases hb : Back p.list with
    | none =>
      have hnil : p.list = [] := List.getLast?_eq_none_iff.mp hb
      refine ⟨p, [], rfl, rfl, by simp, by simp, ?_, ?_⟩
      · intro e he
        rw [hb] at he
        exact Option.noConfusion he
      · rw [hnil]; rfl
    | some e =>
      obtain ⟨ys, hys⟩ := List.getLast?_eq_some_iff.mp hb
      by_cases hx : expired maxLifeTime now (deref p.heap e) = true
      · simp only [hx, if_true]
        have hrem : Remove p.list e = ys := by
          rw [hys]
          exact Remove_back ys e (hys ▸ hnd)
        have hnd' : ys.Nodup := by
          rw [hys, List.nodup_append] at hnd
          exact hnd.1
        have hlen : ys.length < n := by
          rw [hys, List.length_append, List.length_singleton] at h
          omega
        obtain ⟨q, removed, h1, h2, h3, h4, h5, h6⟩ :=
          ih { p with list := Remove p.list e,
                      sessions := mapDelete p.sessions (deref p.heap e).sid }
            (by show (Remove p.list e).Nodup; rw [hrem]; exact hnd')
            (by show (Remove p.list e).length < n; rw [hrem]; exact hlen)
        refine ⟨q, removed ++ [e], h1, h2, ?_, ?_, h5, ?_⟩
        · have h3' : Remove p.list e = q.list ++ removed := h3
          rw [hys, ← List.append_assoc, ← h3', hrem]
        · intro x hx'
          rw [List.mem_append, List.mem_singleton] at hx'
          rcases hx' with hx' | hx'
          · exact h4 x hx'
          · rw [hx']; exact hx
        · have h6' : q.list = (Remove p.list e).rdropWhile
              (fun e => expired maxLifeTime now (deref p.heap e)) := h6
          rw [h6', hrem, hys,
            List.rdropWhile_concat_pos (fun e => expired maxLifeTime now (deref p.heap e)) ys e hx]
      · simp only [hx]
        have hx' : expired maxLifeTime now (deref p.heap e) = false := by simpa using hx
        refine ⟨p, [], rfl, rfl, by simp, by simp, ?_, ?_⟩
        · intro x hxb
          rw [hb] at hxb
          rw [← Option.some.inj hxb]
          exact hx'
        · rw [hys,
            List.rdropWhile_concat_neg (fun e => expired maxLifeTime now (deref p.heap e)) ys e hx]

/-! ## The expiry test without overflow -/

theorem wrapInt64_of_range (x : Int) (h1 : -9223372036854775808 ≤ x)
    (h2 : x < 9223372036854775808) : wrapInt64 x = x := by
  unfold wrapInt64
  rw [Int.emod_eq_of_lt (by omega) (by omega)]
  omega

theorem expired_iff_of_range (maxLifeTime : Int) (now : Time) (s : SessionStore)
    (h : sumFits maxLifeTime s) :
    expired maxLifeTime now s = true ↔ s.timeAccessed.Unix + maxLifeTime < now.Unix := by
  unfold expired
  rw [wrapInt64_of_range _ h.1 h.2, decide_eq_true_eq]

theorem not_expired_of_range (maxLifeTime : Int) (now : Time) (s : SessionStore)
    (h : sumFits maxLifeTime s) (hn : ¬ s.timeAccessed.Unix + maxLifeTime < now.Unix) :
    expired maxLifeTime now s = false := by
  cases he : expired maxLifeTime now s with
  | false => rfl
  | true => exact absurd ((expired_iff_of_range maxLifeTime now s h).mp he) hn

/-! ## The invariant is kept by every call -/

theorem Inv_of_WF (p : Provider) (hp : WF p)
    (hc : ∀ e ∈ p.list, mapGet p.sessions (deref p.heap e).sid = some e) : Inv p :=
  ⟨hp.nodup, hp.valid, hp.sound, hc, hp.keys⟩

theorem Inv_modify (p : Provider) (f : SessionStore → SessionStore)
    (hf : ∀ s, (f s).sid = s.sid) (i : Nat) (hp : Inv p) :
    Inv { p with heap := p.heap.modify f i } := by
  refine Inv_of_WF _ (WF_modify p f hf i (WF_of_Inv p hp)) ?_
  intro e he
  show mapGet p.sessions (deref (p.heap.modify f i) e).sid = some e
  rw [deref_modify_sid _ _ hf]
  exact hp.complete e he

theorem Inv_SessionUpdate (p : Provider) (sid : String) (now : Time) (hp : Inv p) :
    Inv (SessionUpdate p sid now).2 := by
  refine Inv_of_WF _ (WF_SessionUpdate p sid now (WF_of_Inv p hp)) ?_
  unfold SessionUpdate
  cases h : mapGet p.sessions sid with
  | none => exact hp.complete
  | some x =>
    intro e he
    have he' : e ∈ p.list := (mem_MoveToFront _ _ _).mp he
    show mapGet p.sessions (deref (setTimeAccessed p.heap x now) e).sid = some e
    have hs : (deref (setTimeAccessed p.heap x now) e).sid = (deref p.heap e).sid :=
      deref_modify_sid p.heap (fun s => { s with timeAccessed := now }) (fun _ => rfl) x e
    rw [hs]
    exact hp.complete e he'

theorem Inv_remove (p : Provider) (e : Nat) (he : e ∈ p.list) (hp : Inv p) :
    Inv { p with list := Remove p.list e,
                 sessions := mapDelete p.sessions (deref p.heap e).sid } := by
  refine Inv_of_WF _ (WF_remove p e (WF_of_Inv p hp)) ?_
  intro x hx
  have hx' : x ∈ p.list.erase e := hx
  have hxl : x ∈ p.list := List.mem_of_mem_erase hx'
  have hne : x ≠ e := fun hxe => (List.Nodup.not_mem_erase hp.nodup) (hxe ▸ hx')
  show mapGet (mapDelete p.sessions (deref p.heap e).sid) (deref p.heap x).sid = some x
  rw [mapGet_mapDelete]
  have hcx := hp.complete x hxl
  have hce := hp.complete e he
  have : ¬ (deref p.heap e).sid = (deref p.heap x).sid := by
    intro hs
    rw [hs, hcx] at hce
    exact hne (Option.some.inj hce)
  rw [if_neg this]
  exact hcx

theorem Inv_SessionGCLoop (maxLifeTime : Int) (now : Time) (fuel : Nat) :
    ∀ p q : Provider, Inv p → SessionGCLoop maxLifeTime now fuel p = some q → Inv q := by
  induction fuel with
  | zero => intro p q _ h; simp [SessionGCLoop] at h
  | succ n ih =>
    intro p q hp h
    rw [SessionGCLoop_succ] at h
    cases hb : Back p.list with
    | none =>
      rw [hb] at h
      exact (Option.some.inj h) ▸ hp
    | some e =>
      rw [hb] at h
      simp only at h
      split at h
      · exact ih _ q (Inv_remove p e (List.mem_of_getLast?_eq_some hb) hp) h
      · exact (Option.some.inj h) ▸ hp

theorem Inv_Set (p : Provider) (st : Nat) (key value : Iface) (now : Time) (hp : Inv p) :
    Inv (SessionStore.Set p st key value now).2 :=
  Inv_SessionUpdate _ _ now
    (Inv_modify p (fun s => { s with value := mapSet s.value key value }) (fun _ => rfl) st hp)

theorem Inv_Get (p : Provider) (st : Nat) (key : Iface) (now : Time) (hp : Inv p) :
    Inv (SessionStore.Get p st key now).2 := by
  have h1 := Inv_SessionUpdate p (deref p.heap st).sid now hp
  unfold SessionStore.Get
  simp only
  split <;> exact h1

theorem Inv_Delete (p : Provider) (st : Nat) (key : Iface) (now : Time) (hp : Inv p) :
    Inv (SessionStore.Delete p st key now).2 :=
  Inv_SessionUpdate _ _ now
    (Inv_modify p (fun s => { s with value := mapDelete s.value key }) (fun _ => rfl) st hp)

theorem runCalls_fresh (calls : List Call) :
    ∀ p : Provider, Inv p → initsFresh calls p = true →
      ∃ q, runCalls calls p = some q ∧ Inv q := by
  induction calls with
  | nil => intro p hp _; exact ⟨p, rfl, hp⟩
  | cons c rest ih =>
    intro p hp hfresh
    cases c with
    | SessionInit sid now =>
      simp only [initsFresh, Call.apply, Bool.and_eq_true, Option.isNone_iff_eq_none] at hfresh
      exact ih _ (Inv_SessionInit p sid now hp hfresh.1) hfresh.2
    | SessionRead sid now =>
      simp only [initsFresh, Call.apply, Bool.true_and] at hfresh
      exact ih _ (Inv_SessionRead p sid now hp) hfresh
    | SessionDestroy sid =>
      simp only [initsFresh, Call.apply, Bool.true_and] at hfresh
      exact ih _ (Inv_SessionDestroy p sid hp) hfresh
    | SessionGC maxLifeTime now =>
      obtain ⟨q, hq⟩ :=
        SessionGCLoop_total maxLifeTime now (p.list.length + 1) p (Nat.lt_succ_self _)
      have hq' : SessionGC p maxLifeTime now = some q := hq
      simp only [initsFresh, Call.apply, Bool.true_and, hq'] at hfresh
      obtain ⟨r, hr, hinv⟩ := ih q (Inv_SessionGCLoop _ _ _ p q hp hq) hfresh
      refine ⟨r, ?_, hinv⟩
      simp only [runCalls, Call.apply, hq']
      exact hr
    | SessionUpdate sid now =>
      simp only [initsFresh, Call.apply, Bool.true_and] at hfresh
      exact ih _ (Inv_SessionUpdate p sid now hp) hfresh
    | Set st key value now =>
      simp only [initsFresh, Call.apply, Bool.true_and] at hfresh
      exact ih _ (Inv_Set p st key value now hp) hfresh
    | Get st key now =>
      simp only [initsFresh, Call.apply, Bool.true_and] at hfresh
      exact ih _ (Inv_Get p st key now hp) hfresh
    | Delete st key now =>
      simp only [initsFresh, Call.apply, Bool.true_and] at hfresh
      exact ih _ (Inv_Delete p st key now hp) hfresh

/-! ## Session values -/

theorem deref_modify_proj {β : Type} (g : SessionStore → β) (heap : List SessionStore)
    (f : SessionStore → SessionStore) (hf : ∀ s, g (f s) = g s) (i j : Nat) :
    g (deref (heap.modify f i) j) = g (deref heap j) := by
  unfold deref
  rw [List.getD_eq_getElem?_getD, List.getD_eq_getElem?_getD, List.getElem?_modify]
  cases h : heap[j]? with
  | none => simp
  | some s =>
    by_cases hij : i = j
    · simp [hij, hf]
    · simp [hij]

theorem deref_modify_self (heap : List SessionStore) (f : SessionStore → SessionStore)
    (i : Nat) (h : i < heap.length) : deref (heap.modify f i) i = f (deref heap i) := by
  unfold deref
  rw [List.getD_eq_getElem?_getD, List.getD_eq_getElem?_getD, List.getElem?_modify_eq,
    List.getElem?_eq_getElem h]
  rfl

theorem deref_modify_of_ne (heap : List SessionStore) (f : SessionStore → SessionStore)
    (i j : Nat) (h : i ≠ j) : deref (heap.modify f i) j = deref heap j := by
  unfold deref
  rw [List.getD_eq_getElem?_getD, List.getD_eq_getElem?_getD, List.getElem?_modify]
  cases heap[j]? with
  | none => rfl
  | some s => simp [h]

theorem SessionUpdate_value (p : Provider) (sid : String) (now : Time) (st : Nat) :
    (deref (SessionUpdate p sid now).2.heap st).value = (deref p.heap st).value := by
  unfold SessionUpdate
  cases mapGet p.sessions sid with
  | none => rfl
  | some e =>
    exact deref_modify_proj SessionStore.value p.heap
      (fun s => { s with timeAccessed := now }) (fun _ => rfl) e st

theorem Get_eq (p : Provider) (st : Nat) (key : Iface) (now : Time) :
    (SessionStore.Get p st key now).1 = (mapGet (deref p.heap st).value key).getD Iface.nil := by
  unfold SessionStore.Get
  simp only [SessionUpdate_value]
  cases mapGet (deref p.heap st).value key <;> rfl

theorem Set_value (p : Provider) (st : Nat) (key value : Iface) (now : Time)
    (hst : st < p.heap.length) :
    (deref (SessionStore.Set p st key value now).2.heap st).value
      = mapSet (deref p.heap st).value key value := by
  unfold SessionStore.Set
  simp only [SessionUpdate_value]
  rw [deref_modify_self _ _ _ hst]

theorem Delete_value (p : Provider) (st : Nat) (key : Iface) (now : Time)
    (hst : st < p.heap.length) :
    (deref (SessionStore.Delete p st key now).2.heap st).value
      = mapDelete (deref p.heap st).value key := by
  unfold SessionStore.Delete
  simp only [SessionUpdate_value]
  rw [deref_modify_self _ _ _ hst]

theorem Set_value_other (p : Provider) (a b : Nat) (key value : Iface) (now : Time)
    (h : a ≠ b) :
    (deref (SessionStore.Set p a key value now).2.heap b).value = (deref p.heap b).value := by
  unfold SessionStore.Set
  simp only [SessionUpdate_value]
  rw [deref_modify_of_ne _ _ _ _ h]

theorem Delete_value_other (p : Provider) (a b : Nat) (key : Iface) (now : Time)
    (h : a ≠ b) :
    (deref (SessionStore.Delete p a key now).2.heap b).value = (deref p.heap b).value := by
  unfold SessionStore.Delete
  simp only [SessionUpdate_value]
  rw [deref_modify_of_ne _ _ _ _ h]

theorem Set_sessions (p : Provider) (st : Nat) (key value : Iface) (now : Time) :
    (SessionStore.Set p st key value now).2.sessions = p.sessions := by
  unfold SessionStore.Set SessionUpdate
  simp only
  split <;> rfl

theorem Set_length (p : Provider) (st : Nat) (key value : Iface) (now : Time) :
    (SessionStore.Set p st key value now).2.heap.length = p.heap.length := by
  unfold SessionStore.Set SessionUpdate
  simp only
  split <;> simp [setTimeAccessed]

/-! ## The manager: entropy failure, the timer, the response -/

theorem QueryEscape_empty : QueryEscape "" = "" := rfl

theorem SessionStart_entropy_failure (manager : Manager) (p : Provider) (w : List Cookie)
    (r : Request) (now : Time)
    (hr : r.Cookie manager.cookieName = none ∨ r.Cookie manager.cookieName = some "") :
    Manager.SessionStart manager p w r none now =
      ((SessionInit p "" now).1.1, (SessionInit p "" now).2,
       SetCookie w { Name := manager.cookieName, Value := "", Path := "/", HttpOnly := true,
                     Expires := none, MaxAge := manager.maxLifeTime }) :=
  SessionStart_create manager p w r none now hr

theorem Manager_GC_delay (manager : Manager) (p q : Provider) (now : Time) (d : Int)
    (h : Manager.GC manager p now = some (q, d)) : d = manager.maxLifeTime := by
  unfold Manager.GC at h
  cases hg : SessionGC p manager.maxLifeTime now with
  | none => rw [hg] at h; exact Option.noConfusion h
  | some x =>
    rw [hg] at h
    exact (congrArg Prod.snd (Option.some.inj h)).symm

/-! ## Locking of the store operations -/

theorem SessionRead_events_undisciplined (p : Provider) (sid : String) :
    lockDiscipline false (SessionRead.events p sid) = false := rfl

theorem SessionDestroy_events_undisciplined (p : Provider) (sid : String) :
    lockDiscipline false (SessionDestroy.events p sid) = false := rfl

theorem SessionUpdate_events_disciplined (p : Provider) (sid : String) :
    lockDiscipline false (SessionUpdate.events p sid) = true := by
  unfold SessionUpdate.events
  cases mapGet p.sessions sid <;> rfl

theorem SessionGCLoop_events_disciplined (maxLifeTime : Int) (now : Time) (fuel : Nat) :
    ∀ p : Provider, lockDiscipline true
      (SessionGCLoop.events maxLifeTime now fuel p ++ [Event.Unlock]) = true := by
  induction fuel with
  | zero => intro p; rfl
  | succ n ih =>
    intro p
    unfold SessionGCLoop.events
    cases Back p.list with
    | none => rfl
    | some e =>
      simp only
      split
      · simp only [List.cons_append, lockDiscipline, Bool.true_and]
        exact ih _
      · rfl

theorem SessionGC_events_disciplined (p : Provider) (maxLifeTime : Int) (now : Time) :
    lockDiscipline false (SessionGC.events p maxLifeTime now) = true := by
  have h := SessionGCLoop_events_disciplined maxLifeTime now (p.list.length + 1) p
  unfold SessionGC.events
  rw [lockDiscipline, h]
  rfl

/-! ## The sweep and the expiry test of the code -/

/-- For every store and every `maxLifeTime`, if the recency list is empty or
its back element fails the expiry test of the sweep, `SessionGC` returns with the
store as it was: the lookup map and the recency list are unchanged. When the sum
`lastAccessed + maxLifeTime` of the back element fits into an `int64`, failing the
test is `lastAccessed + maxLifeTime < now` being false. -/
theorem SessionGC_stops_at_unexpired_back (p : Provider) (maxLifeTime : Int) (now : Time) :
    ((Back p.list = none ∨
        ∃ e, Back p.list = some e ∧ expired maxLifeTime now (deref p.heap e) = false) →
      SessionGC p maxLifeTime now = some p) ∧
    (∀ e, Back p.list = some e → sumFits maxLifeTime (deref p.heap e) →
      ¬ (deref p.heap e).timeAccessed.Unix + maxLifeTime < now.Unix →
      SessionGC p maxLifeTime now = some p) := by
  have key : (∀ e, Back p.list = some e → expired maxLifeTime now (deref p.heap e) = false) →
      SessionGC p maxLifeTime now = some p := by
    intro h
    unfold SessionGC
    exact SessionGCLoop_stop maxLifeTime now _ p h
  constructor
  · intro h
    apply key
    intro e he
    rcases h with h | ⟨x, hx, hxe⟩
    · rw [h] at he
      exact Option.noConfusion he
    · rw [hx] at he
      rw [← Option.some.inj he]
      exact hxe
  · intro e he hfit hn
    apply key
    intro x hx
    rw [he] at hx
    rw [← Option.some.inj hx]
    exact not_expired_of_range maxLifeTime now _ hfit hn

/-- For every store and every `maxLifeTime`, the loop of `SessionGC` returns
within `list length + 1` iterations; when the list elements are distinct, as the
elements of a `container/list` are, the heap is unchanged and the old list is the
new list followed by the removed elements, every removed element passes the expiry
test of the sweep, and the back element of the new list, if any, fails it: the
removed elements are the longest expired suffix. When the sums
`lastAccessed + maxLifeTime` of the list entries fit into an `int64`, passing the
test is `lastAccessed + maxLifeTime < now`. -/
theorem SessionGC_removes_expired_suffix (p : Provider) (maxLifeTime : Int) (now : Time) :
    (∃ q, SessionGCLoop maxLifeTime now (p.list.length + 1) p = some q ∧
      SessionGC p maxLifeTime now = some q) ∧
    (p.list.Nodup →
      ∃ q removed, SessionGC p maxLifeTime now = some q ∧
        q.heap = p.heap ∧
        p.list = q.list ++ removed ∧
        (∀ e ∈ removed, expired maxLifeTime now (deref p.heap e) = true) ∧
        (∀ e, Back q.list = some e → expired maxLifeTime now (deref p.heap e) = false) ∧
        q.list = p.list.rdropWhile (fun e => expired maxLifeTime now (deref p.heap e))) ∧
    (p.list.Nodup → (∀ e ∈ p.list, sumFits maxLifeTime (deref p.heap e)) →
      ∃ q removed, SessionGC p maxLifeTime now = some q ∧
        q.heap = p.heap ∧
        p.list = q.list ++ removed ∧
        (∀ e ∈ removed, (deref p.heap e).timeAccessed.Unix + maxLifeTime < now.Unix) ∧
        (∀ e, Back q.list = some e →
          ¬ (deref p.heap e).timeAccessed.Unix + maxLifeTime < now.Unix)) := by
  refine ⟨?_, ?_, ?_⟩
  · obtain ⟨q, hq⟩ :=
      SessionGCLoop_total maxLifeTime now (p.list.length + 1) p (Nat.lt_succ_self _)
    exact ⟨q, hq, hq⟩
  · intro hnd
    exact SessionGCLoop_tail maxLifeTime now (p.list.length + 1) p hnd (Nat.lt_succ_self _)
  · intro hnd hfit
    obtain ⟨q, removed, h1, h2, h3, h4, h5, _⟩ :=
      SessionGCLoop_tail maxLifeTime now (p.list.length + 1) p hnd (Nat.lt_succ_self _)
    refine ⟨q, removed, h1, h2, h3, ?_, ?_⟩
    · intro e he
      have hmem : e ∈ p.list := by rw [h3]; exact List.mem_append_right _ he
      exact (expired_iff_of_range maxLifeTime now _ (hfit e hmem)).mp (h4 e he)
    · intro e he hlt
      have hmem : e ∈ p.list := by
        rw [h3]; exact List.mem_append_left _ (List.mem_of_getLast?_eq_some he)
      have := (expired_iff_of_range maxLifeTime now _ (hfit e hmem)).mpr hlt
      rw [h5 e he] at this
      exact Bool.noConfusion this

/-! # The claims -/

/-! ## C1: the bijection invariant -/

/-- C1, as stated, fails: after `SessionInit("a")` twice on the empty store the key
`"a"` is the identifier of two list elements, and the map has one key while the list
has two elements. -/
theorem bijection_fails_on_repeated_init :
    ∃ p, runCalls [Call.SessionInit "a" 0, Call.SessionInit "a" 0] prov = some p ∧
      "a" ∈ mapKeys p.sessions ∧ (listSids p).count "a" = 2 ∧
      (mapKeys p.sessions).length = 1 ∧ p.list.length = 2 ∧ ¬ BijectionCount p :=
  ⟨_, rfl, by decide, by decide, by decide, by decide, by decide⟩

/-- C1, amended: for every sequence of `SessionInit` / `SessionRead` /
`SessionDestroy` calls from the empty store in which no `SessionInit` is given an
identifier that is a key of the lookup map at that moment, every key of the map is
the identifier of exactly one list element and the number of keys equals the length
of the list. -/
theorem bijection_init_read_destroy (calls : List Call)
    (hkind : ∀ c ∈ calls, c.isInitReadDestroy = true)
    (hfresh : initsFresh calls prov = true) :
    ∃ p, runCalls calls prov = some p ∧ BijectionCount p := by
  obtain ⟨q, hq, hinv⟩ := runCalls_init_read_destroy calls prov Inv_prov hkind hfresh
  exact ⟨q, hq, BijectionCount_of_Inv q hinv⟩

/-- C1, amended, on a run with a repeated identifier: `"a"` is initialised, read,
destroyed and initialised again. -/
theorem bijection_init_read_destroy_witness :
    ∃ p, runCalls [Call.SessionInit "a" 1, Call.SessionRead "b" 2, Call.SessionRead "a" 3,
        Call.SessionDestroy "a", Call.SessionInit "a" 4] prov = some p ∧ BijectionCount p :=
  bijection_init_read_destroy _ (by decide) (by decide)

/-! ## C2: reading a present session -/

/-- C2, as stated, fails: in the store holding `"a"` (initialised at second 1) and
`"b"` (initialised at second 2), `"b"` is a key of the lookup map, yet after
`SessionRead("b")` at second 5 the returned entry is not the front of the recency
list and its `timeAccessed` is still second 2. -/
theorem read_does_not_promote :
    ∃ p, runCalls [Call.SessionInit "a" 1000000000, Call.SessionInit "b" 2000000000] prov
        = some p ∧
      mapGet p.sessions "b" = some 1 ∧
      (SessionRead p "b" 5000000000).1 = (1, none) ∧
      Front (SessionRead p "b" 5000000000).2.list = some 0 ∧
      Front (SessionRead p "b" 5000000000).2.list ≠ some 1 ∧
      (deref (SessionRead p "b" 5000000000).2.heap 1).timeAccessed = 2000000000 ∧
      (deref (SessionRead p "b" 5000000000).2.heap 1).timeAccessed ≠ 5000000000 :=
  ⟨_, rfl, by decide, by decide, by decide, by decide, by decide, by decide⟩

/-- C2, amended: for every store and every identifier that is a key of the lookup
map, `SessionRead` returns the element the map holds for it, with a nil error, and
leaves the store as it was: the recency list and every `timeAccessed` are
unchanged. -/
theorem SessionRead_present (p : Provider) (sid : String) (now : Time) (element : Nat)
    (h : mapGet p.sessions sid = some element) :
    SessionRead p sid now = ((element, none), p) :=
  SessionRead_of_mapGet p sid now element h

/-- C2, amended, on the store holding `"a"` and `"b"`. -/
theorem SessionRead_present_witness :
    SessionRead (SessionInit (SessionInit prov "a" 1000000000).2 "b" 2000000000).2 "b"
        5000000000
      = ((1, none), (SessionInit (SessionInit prov "a" 1000000000).2 "b" 2000000000).2) :=
  SessionRead_present _ "b" 5000000000 1 (by decide)

/-! ## C3: completeness of the sweep -/

/-- C3 at a failing input: `"a"` is initialised at second 0 and `"b"` at second 100;
the sweep `SessionGC(1)` at second 100 inspects the back element `"b"`, which is not
expired, and stops, so `"a"` stays in the map and in the list although
`lastAccessed + 1 < now` for it. -/
theorem gc_leaves_expired_session :
    clockNonDecreasing [Call.SessionInit "a" 0, Call.SessionInit "b" 100000000000,
        Call.SessionGC 1 100000000000] = true ∧
    ∃ p, runCalls [Call.SessionInit "a" 0, Call.SessionInit "b" 100000000000,
        Call.SessionGC 1 100000000000] prov = some p ∧
      mapGet p.sessions "a" = some 0 ∧ 0 ∈ p.list ∧ (deref p.heap 0).sid = "a" ∧
      (deref p.heap 0).timeAccessed.Unix + 1 < Time.Unix 100000000000 :=
  ⟨by decide, _, rfl, by decide, by decide, by decide, by decide⟩

/-! ## C4: soundness of the sweep -/

/-- C4 at a failing input: the only session was accessed in the very second of the
sweep and `maxLifeTime` is the largest `int64`. The sum wraps to a negative number,
so the sweep removes the session although `lastAccessed + T < now` is false. -/
theorem gc_removes_unexpired_session_on_overflow :
    ¬ ((deref (SessionInit prov "a" 1700000000000000000).2.heap 0).timeAccessed.Unix
        + 9223372036854775807 < Time.Unix 1700000000000000000) ∧
    SessionGC (SessionInit prov "a" 1700000000000000000).2 9223372036854775807
        1700000000000000000
      = some { heap := [{ sid := "a", timeAccessed := 1700000000000000000, value := [] }],
               sessions := [], list := [] } :=
  ⟨by decide, by decide⟩

/-! ## C5: destroy through the manager -/

/-- C5 at a failing input: `SessionStart` on a request without cookie, with 32 zero
bytes from the random source, creates the session `AAA…A=` and hands out the cookie
value `AAA…A%3D`. `Manager.SessionDestroy` on a request presenting exactly this
value passes it to the provider without unescaping, so the provider finds no such
key: the store is unchanged and the identifier is still a key of the lookup map. -/
theorem manager_destroy_keeps_session :
    (Manager.SessionStart ⟨"session_id", 3600⟩ prov [] ⟨[]⟩
        (some (List.replicate 32 0)) 5).2.2.map Cookie.Value
      = ["AAAAAAAAAAAAAAAAAAAAAAAAAAAAAAAAAAAAAAAAAAA%3D"] ∧
    mapGet (Manager.SessionStart ⟨"session_id", 3600⟩ prov [] ⟨[]⟩
        (some (List.replicate 32 0)) 5).2.1.sessions
      "AAAAAAAAAAAAAAAAAAAAAAAAAAAAAAAAAAAAAAAAAAA=" = some 0 ∧
    (Manager.SessionDestroy ⟨"session_id", 3600⟩
        (Manager.SessionStart ⟨"session_id", 3600⟩ prov [] ⟨[]⟩
          (some (List.replicate 32 0)) 5).2.1
        (Manager.SessionStart ⟨"session_id", 3600⟩ prov [] ⟨[]⟩
          (some (List.replicate 32 0)) 5).2.2
        ⟨[("session_id", "AAAAAAAAAAAAAAAAAAAAAAAAAAAAAAAAAAAAAAAAAAA%3D")]⟩ 6).1
      = (Manager.SessionStart ⟨"session_id", 3600⟩ prov [] ⟨[]⟩
          (some (List.replicate 32 0)) 5).2.1 ∧
    mapGet (Manager.SessionDestroy ⟨"session_id", 3600⟩
        (Manager.SessionStart ⟨"session_id", 3600⟩ prov [] ⟨[]⟩
          (some (List.replicate 32 0)) 5).2.1
        (Manager.SessionStart ⟨"session_id", 3600⟩ prov [] ⟨[]⟩
          (some (List.replicate 32 0)) 5).2.2
        ⟨[("session_id", "AAAAAAAAAAAAAAAAAAAAAAAAAAAAAAAAAAAAAAAAAAA%3D")]⟩ 6).1.sessions
      "AAAAAAAAAAAAAAAAAAAAAAAAAAAAAAAAAAAAAAAAAAA=" = some 0 :=
  ⟨by decide, by decide, by decide, by decide⟩

/-! ## C6: the cookie round trip -/

/-- C6, as stated, fails: with the empty `cookieName`, `SessionStart` on a request
without cookies, the random source delivering 32 zero bytes, creates the session
`AAA…A=` but `http.SetCookie` drops the cookie, so the response carries no cookie
whose value unescapes to the identifier. -/
theorem round_trip_fails_for_invalid_cookie_name :
    isCookieNameValid "" = false ∧
    mapGet (Manager.SessionStart ⟨"", 3600⟩ prov [] ⟨[]⟩
        (some (List.replicate 32 0)) 5).2.1.sessions
      "AAAAAAAAAAAAAAAAAAAAAAAAAAAAAAAAAAAAAAAAAAA=" = some 0 ∧
    (Manager.SessionStart ⟨"", 3600⟩ prov [] ⟨[]⟩ (some (List.replicate 32 0)) 5).2.2 = [] :=
  ⟨by decide, by decide, by decide⟩

/-- C6, amended: for every manager whose `cookieName` is a valid cookie name and
every identifier the generator produces from 32 random bytes, `SessionStart` on a
request without a session cookie adds one cookie to the response, named
`cookieName`, whose value is the escaped identifier and unescapes to the identifier,
and returns a session with that identifier; a following `SessionStart` on a request
carrying this cookie value returns the same entry, with that identifier, and leaves
the store and the response as they were, so no entry is created. -/
theorem cookie_round_trip (manager : Manager) (p : Provider) (w : List Cookie)
    (r r2 : Request) (b : List Nat) (rand2 : Option (List Nat)) (now now2 : Time)
    (hname : isCookieNameValid manager.cookieName = true) (hb : b.length = 32)
    (hr : r.Cookie manager.cookieName = none ∨ r.Cookie manager.cookieName = some "")
    (hr2 : r2.Cookie manager.cookieName = some (QueryEscape (Manager.sessionId (some b)))) :
    ∃ c, (Manager.SessionStart manager p w r (some b) now).2.2 = w ++ [c] ∧
      c.Name = manager.cookieName ∧
      c.Value = QueryEscape (Manager.sessionId (some b)) ∧
      QueryUnescape c.Value = some (Manager.sessionId (some b)) ∧
      SessionStore.SessionID (Manager.SessionStart manager p w r (some b) now).2.1
        (Manager.SessionStart manager p w r (some b) now).1 = Manager.sessionId (some b) ∧
      Manager.SessionStart manager (Manager.SessionStart manager p w r (some b) now).2.1
          (Manager.SessionStart manager p w r (some b) now).2.2 r2 rand2 now2
        = Manager.SessionStart manager p w r (some b) now ∧
      SessionStore.SessionID
        (Manager.SessionStart manager (Manager.SessionStart manager p w r (some b) now).2.1
          (Manager.SessionStart manager p w r (some b) now).2.2 r2 rand2 now2).2.1
        (Manager.SessionStart manager (Manager.SessionStart manager p w r (some b) now).2.1
          (Manager.SessionStart manager p w r (some b) now).2.2 r2 rand2 now2).1
        = Manager.sessionId (some b) := by
  have hne : b ≠ [] := by
    intro h; rw [h] at hb; exact absurd hb (by decide)
  have hsid : Manager.sessionId (some b) = EncodeToString b := rfl
  have hrt : QueryUnescape (QueryEscape (EncodeToString b)) = some (EncodeToString b) :=
    QueryUnescape_QueryEscape _ (encodeChars_toNat b)
  have hv : QueryEscape (EncodeToString b) ≠ "" :=
    QueryEscape_ne_empty _ (EncodeToString_ne_empty b hne)
  have hid : SessionStore.SessionID (SessionInit p (EncodeToString b) now).2
      (SessionInit p (EncodeToString b) now).1.1 = EncodeToString b := by
    show (deref (p.heap ++ [_]) p.heap.length).sid = EncodeToString b
    rw [deref_append_new]
  have hsecond : Manager.SessionStart manager (SessionInit p (EncodeToString b) now).2
      (w ++ [{ Name := manager.cookieName, Value := QueryEscape (EncodeToString b),
               Path := "/", HttpOnly := true, Expires := none,
               MaxAge := manager.maxLifeTime }]) r2 rand2 now2
      = ((SessionInit p (EncodeToString b) now).1.1, (SessionInit p (EncodeToString b) now).2,
         w ++ [{ Name := manager.cookieName, Value := QueryEscape (EncodeToString b),
                 Path := "/", HttpOnly := true, Expires := none,
                 MaxAge := manager.maxLifeTime }]) := by
    rw [hsid] at hr2
    rw [SessionStart_existing manager _ _ r2 rand2 now2 _ hr2 hv, hrt, Option.getD_some,
      SessionRead_of_mapGet _ _ now2 _ (mapGet_SessionInit p (EncodeToString b) now)]
  rw [SessionStart_create manager p w r (some b) now hr, hsid,
    SetCookie_valid w _ hname]
  refine ⟨_, rfl, rfl, rfl, hrt, hid, hsecond, ?_⟩
  rw [hsecond]
  exact hid

/-- C6, amended, on the empty store, with the cookie name `session_id` and 32 zero
bytes from the random source: the cookie value is the identifier with its padding
`=` escaped, and `SessionStart` on the request carrying `session_id=AAA…A%3D`
returns element 0 again without changing the store or the response. -/
theorem cookie_round_trip_witness :
    ∃ c, (Manager.SessionStart ⟨"session_id", 3600⟩ prov [] ⟨[]⟩
          (some (List.replicate 32 0)) 5).2.2 = [] ++ [c] ∧
      c.Name = "session_id" ∧
      c.Value = "AAAAAAAAAAAAAAAAAAAAAAAAAAAAAAAAAAAAAAAAAAA%3D" ∧
      QueryUnescape c.Value = some "AAAAAAAAAAAAAAAAAAAAAAAAAAAAAAAAAAAAAAAAAAA=" ∧
      SessionStore.SessionID (Manager.SessionStart ⟨"session_id", 3600⟩ prov [] ⟨[]⟩
          (some (List.replicate 32 0)) 5).2.1
        (Manager.SessionStart ⟨"session_id", 3600⟩ prov [] ⟨[]⟩
          (some (List.replicate 32 0)) 5).1 = "AAAAAAAAAAAAAAAAAAAAAAAAAAAAAAAAAAAAAAAAAAA=" ∧
      Manager.SessionStart ⟨"session_id", 3600⟩
          (Manager.SessionStart ⟨"session_id", 3600⟩ prov [] ⟨[]⟩
            (some (List.replicate 32 0)) 5).2.1
          (Manager.SessionStart ⟨"session_id", 3600⟩ prov [] ⟨[]⟩
            (some (List.replicate 32 0)) 5).2.2
          ⟨[("session_id", "AAAAAAAAAAAAAAAAAAAAAAAAAAAAAAAAAAAAAAAAAAA%3D")]⟩ none 6
        = Manager.SessionStart ⟨"session_id", 3600⟩ prov [] ⟨[]⟩
            (some (List.replicate 32 0)) 5 ∧
      SessionStore.SessionID
        (Manager.SessionStart ⟨"session_id", 3600⟩
          (Manager.SessionStart ⟨"session_id", 3600⟩ prov [] ⟨[]⟩
            (some (List.replicate 32 0)) 5).2.1
          (Manager.SessionStart ⟨"session_id", 3600⟩ prov [] ⟨[]⟩
            (some (List.replicate 32 0)) 5).2.2
          ⟨[("session_id", "AAAAAAAAAAAAAAAAAAAAAAAAAAAAAAAAAAAAAAAAAAA%3D")]⟩ none 6).2.1
        (Manager.SessionStart ⟨"session_id", 3600⟩
          (Manager.SessionStart ⟨"session_id", 3600⟩ prov [] ⟨[]⟩
            (some (List.replicate 32 0)) 5).2.1
          (Manager.SessionStart ⟨"session_id", 3600⟩ prov [] ⟨[]⟩
            (some (List.replicate 32 0)) 5).2.2
          ⟨[("session_id", "AAAAAAAAAAAAAAAAAAAAAAAAAAAAAAAAAAAAAAAAAAA%3D")]⟩ none 6).1
        = "AAAAAAAAAAAAAAAAAAAAAAAAAAAAAAAAAAAAAAAAAAA=" :=
  cookie_round_trip ⟨"session_id", 3600⟩ prov []
    ⟨[]⟩ ⟨[("session_id", "AAAAAAAAAAAAAAAAAAAAAAAAAAAAAAAAAAAAAAAAAAA%3D")]⟩
    (List.replicate 32 0) none 5 6 (by decide) (by decide) (Or.inl (by decide)) (by decide)

/-! ## C7: the postcondition of SessionInit -/

/-- C7 at a failing input: in the store holding `"a"`, `SessionInit("b")` returns a
new entry with identifier `"b"`, no values and the current time, and the map sends
`"b"` to it, but the entry is the back of the recency list; the front is still the
element of `"a"`. -/
theorem SessionInit_pushes_back :
    (SessionInit (SessionInit prov "a" 1000000000).2 "b" 2000000000).1 = (1, none) ∧
    deref (SessionInit (SessionInit prov "a" 1000000000).2 "b" 2000000000).2.heap 1
      = { sid := "b", timeAccessed := 2000000000, value := [] } ∧
    mapGet (SessionInit (SessionInit prov "a" 1000000000).2 "b" 2000000000).2.sessions "b"
      = some 1 ∧
    Front (SessionInit (SessionInit prov "a" 1000000000).2 "b" 2000000000).2.list = some 0 ∧
    Back (SessionInit (SessionInit prov "a" 1000000000).2 "b" 2000000000).2.list = some 1 :=
  ⟨by decide, by decide, by decide, by decide, by decide⟩

/-! ## C8: the tail of the recency list -/

/-- C8 at a failing input: `"a"` is initialised at second 0 and `"b"` at second 1,
under a non-decreasing clock. The back element of the list is then `"b"`, accessed
later than the front element `"a"`: the tail is not the least recently used entry. -/
theorem tail_not_least_recently_used :
    clockNonDecreasing [Call.SessionInit "a" 0, Call.SessionInit "b" 1000000000] = true ∧
    ∃ p, runCalls [Call.SessionInit "a" 0, Call.SessionInit "b" 1000000000] prov = some p ∧
      Front p.list = some 0 ∧ Back p.list = some 1 ∧
      (deref p.heap 0).timeAccessed < (deref p.heap 1).timeAccessed :=
  ⟨by decide, _, rfl, by decide, by decide, by decide⟩

/-! ## C9: promotion by Set, Get and Delete -/

/-- C9: for every well-formed store and every session `st` whose identifier is a
key of the lookup map, with `element` the list element indexed under it, after
`Set`, `Get` or `Delete` on `st` that element is still the one indexed under the
identifier, it is the front of the recency list, its `timeAccessed` is the time of
the call, and the list without it is the same as before: the other entries keep
their relative order. -/
theorem Set_Get_Delete_promote (p : Provider) (hp : WF p) (st : Nat) (key value : Iface)
    (now : Time) (element : Nat)
    (hmap : mapGet p.sessions (SessionStore.SessionID p st) = some element) :
    ∀ q ∈ [(SessionStore.Set p st key value now).2, (SessionStore.Get p st key now).2,
        (SessionStore.Delete p st key now).2],
      mapGet q.sessions (SessionStore.SessionID q st) = some element ∧
      Front q.list = some element ∧
      (deref q.heap element).timeAccessed = now ∧
      q.list.filter (fun e => decide (e ≠ element))
        = p.list.filter (fun e => decide (e ≠ element)) := by
  have key_fact : ∀ (f : SessionStore → SessionStore), (∀ s, (f s).sid = s.sid) →
      ∀ q, q = (SessionUpdate { p with heap := p.heap.modify f st }
          (deref (p.heap.modify f st) st).sid now).2 →
        mapGet q.sessions (SessionStore.SessionID q st) = some element ∧
        Front q.list = some element ∧
        (deref q.heap element).timeAccessed = now ∧
        q.list.filter (fun e => decide (e ≠ element))
          = p.list.filter (fun e => decide (e ≠ element)) := by
    intro f hf q hq
    have hwf := WF_modify p f hf st hp
    have hsid : (deref (p.heap.modify f st) st).sid = (deref p.heap st).sid :=
      deref_modify_sid _ _ hf _ _
    have hm : mapGet ({ p with heap := p.heap.modify f st } : Provider).sessions
        (deref (p.heap.modify f st) st).sid = some element := by
      rw [hsid]; exact hmap
    obtain ⟨h1, h2, h3, h4, h5⟩ := SessionUpdate_promote _ hwf _ now element hm
    subst hq
    refine ⟨?_, h3, h4, h5⟩
    unfold SessionStore.SessionID
    rw [h1, h2 st]
    exact hm
  intro q hq
  simp only [List.mem_cons, List.mem_singleton, List.not_mem_nil, or_false] at hq
  rcases hq with hq | hq | hq
  · exact key_fact (fun s => { s with value := mapSet s.value key value }) (fun _ => rfl) q hq
  · have hq' : q = (SessionUpdate p (deref p.heap st).sid now).2 := by
      rw [hq]
      unfold SessionStore.Get
      simp only
      split <;> rfl
    have hmap' : mapGet p.sessions (deref p.heap st).sid = some element := hmap
    obtain ⟨h1, h2, h3, h4, h5⟩ :=
      SessionUpdate_promote p hp (deref p.heap st).sid now element hmap'
    subst hq'
    refine ⟨?_, h3, h4, h5⟩
    unfold SessionStore.SessionID
    rw [h1, h2 st]
    exact hmap'
  · exact key_fact (fun s => { s with value := mapDelete s.value key }) (fun _ => rfl) q hq

/-- C9 on the store holding `"a"`, `"b"`, `"c"` in this order: `Set`, `Get` and
`Delete` on the session of `"b"` (element 1) each make element 1 the front, set its
`timeAccessed` to the time of the call, and leave `"a"` before `"c"`. -/
theorem Set_Get_Delete_promote_witness :
    (mapGet (SessionStore.Set storeABC 1 (Iface.str "k") (Iface.int 7) 9).2.sessions
        (SessionStore.SessionID
          (SessionStore.Set storeABC 1 (Iface.str "k") (Iface.int 7) 9).2 1) = some 1 ∧
      Front (SessionStore.Set storeABC 1 (Iface.str "k") (Iface.int 7) 9).2.list = some 1 ∧
      (deref (SessionStore.Set storeABC 1 (Iface.str "k") (Iface.int 7) 9).2.heap
        1).timeAccessed = 9 ∧
      (SessionStore.Set storeABC 1 (Iface.str "k") (Iface.int 7) 9).2.list.filter
        (fun e => decide (e ≠ 1)) = [0, 2]) ∧
    (mapGet (SessionStore.Get storeABC 1 (Iface.str "k") 9).2.sessions
        (SessionStore.SessionID (SessionStore.Get storeABC 1 (Iface.str "k") 9).2 1)
        = some 1 ∧
      Front (SessionStore.Get storeABC 1 (Iface.str "k") 9).2.list = some 1 ∧
      (deref (SessionStore.Get storeABC 1 (Iface.str "k") 9).2.heap 1).timeAccessed = 9 ∧
      (SessionStore.Get storeABC 1 (Iface.str "k") 9).2.list.filter
        (fun e => decide (e ≠ 1)) = [0, 2]) ∧
    (mapGet (SessionStore.Delete storeABC 1 (Iface.str "k") 9).2.sessions
        (SessionStore.SessionID (SessionStore.Delete storeABC 1 (Iface.str "k") 9).2 1)
        = some 1 ∧
      Front (SessionStore.Delete storeABC 1 (Iface.str "k") 9).2.list = some 1 ∧
      (deref (SessionStore.Delete storeABC 1 (Iface.str "k") 9).2.heap 1).timeAccessed = 9 ∧
      (SessionStore.Delete storeABC 1 (Iface.str "k") 9).2.list.filter
        (fun e => decide (e ≠ 1)) = [0, 2]) :=
  ⟨Set_Get_Delete_promote storeABC WF_storeABC 1 (Iface.str "k") (Iface.int 7) 9 1
      (by decide) _ (List.Mem.head _),
   Set_Get_Delete_promote storeABC WF_storeABC 1 (Iface.str "k") (Iface.int 7) 9 1
      (by decide) _ (List.Mem.tail _ (List.Mem.head _)),
   Set_Get_Delete_promote storeABC WF_storeABC 1 (Iface.str "k") (Iface.int 7) 9 1
      (by decide) _ (List.Mem.tail _ (List.Mem.tail _ (List.Mem.head _)))⟩

/-! ## C10: destroy -/

/-- C10, as stated, fails: after `SessionInit("a")` twice the list holds two elements
with identifier `"a"`; `SessionDestroy("a")` deletes the key and unlinks the element
the map held, and the other element with identifier `"a"` stays in the list. -/
theorem destroy_leaves_duplicate_in_list :
    ∃ p, runCalls [Call.SessionInit "a" 0, Call.SessionInit "a" 0] prov = some p ∧
      "a" ∉ mapKeys (SessionDestroy p "a").2.sessions ∧
      (SessionDestroy p "a").2.list = [0] ∧
      "a" ∈ listSids (SessionDestroy p "a").2 :=
  ⟨_, rfl, by decide, by decide, by decide⟩

/-- C10, amended: for every store and identifier, `SessionDestroy` returns a nil
error; afterwards the identifier is not a key of the lookup map, the heap and the
other keys of the map are unchanged, and the list is the old list after `Remove` of
the element the map held for the identifier; if the identifier was absent the store
is unchanged, and a second `SessionDestroy` changes nothing. For a well-formed
store (`WF`, as every reachable store is) the element the map held is not in the list
afterwards and the other elements keep their order. When in addition every list
element carrying the identifier is the element the map holds for it, no list element
carries the identifier afterwards, and the list is the old list without the elements
carrying it, in the same order. -/
theorem SessionDestroy_removes (p : Provider) (sid : String) :
    (SessionDestroy p sid).1 = none ∧
    sid ∉ mapKeys (SessionDestroy p sid).2.sessions ∧
    (SessionDestroy p sid).2.heap = p.heap ∧
    (∀ k, k ≠ sid → mapGet (SessionDestroy p sid).2.sessions k = mapGet p.sessions k) ∧
    (∀ e, mapGet p.sessions sid = some e → (SessionDestroy p sid).2.list = Remove p.list e) ∧
    (mapGet p.sessions sid = none → (SessionDestroy p sid).2 = p) ∧
    SessionDestroy (SessionDestroy p sid).2 sid = (none, (SessionDestroy p sid).2) ∧
    (WF p → ∀ e, mapGet p.sessions sid = some e →
      e ∉ (SessionDestroy p sid).2.list ∧
      (SessionDestroy p sid).2.list = p.list.filter (fun x => decide (x ≠ e))) ∧
    (WF p →
      (∀ e ∈ p.list, (deref p.heap e).sid = sid → mapGet p.sessions sid = some e) →
      sid ∉ listSids (SessionDestroy p sid).2 ∧
      (SessionDestroy p sid).2.list
        = p.list.filter (fun e => decide ((deref p.heap e).sid ≠ sid))) := by
  refine ⟨?_, ?_, heap_SessionDestroy p sid, ?_, ?_, ?_, ?_, ?_, ?_⟩
  · unfold SessionDestroy; split <;> rfl
  · exact (mapGet_eq_none_iff _ _).mp (mapGet_SessionDestroy_self p sid)
  · intro k hk
    unfold SessionDestroy
    split
    · show mapGet (mapDelete p.sessions sid) k = _
      rw [mapGet_mapDelete, if_neg (fun h => hk h.symm)]
    · rfl
  · intro e he
    unfold SessionDestroy
    rw [he]
  · intro h
    rw [SessionDestroy_of_absent p sid h]
  · exact SessionDestroy_of_absent _ sid (mapGet_SessionDestroy_self p sid)
  · intro hp e he
    exact ⟨not_mem_list_SessionDestroy p sid hp e he,
      list_SessionDestroy_of_present p sid hp e he⟩
  · intro hp hcar
    exact ⟨listSids_SessionDestroy p sid hp hcar, list_SessionDestroy p sid hp hcar⟩

/-- C10, amended, on the store holding `"a"`, `"b"`, `"c"`, where element 1 is the
only one carrying `"b"` and the map holds it for `"b"`: destroying `"b"` leaves the
elements of `"a"` and `"c"` in this order, element 1 is gone, and no element carries
`"b"`. -/
theorem SessionDestroy_removes_witness :
    (1 ∉ (SessionDestroy storeABC "b").2.list ∧
      (SessionDestroy storeABC "b").2.list = [0, 2]) ∧
    "b" ∉ listSids (SessionDestroy storeABC "b").2 ∧
    (SessionDestroy storeABC "b").2.list = [0, 2] :=
  ⟨(SessionDestroy_removes storeABC "b").2.2.2.2.2.2.2.1 WF_storeABC 1 (by decide),
   (SessionDestroy_removes storeABC "b").2.2.2.2.2.2.2.2 WF_storeABC (by decide)⟩

/-! ## C11: the sweep stops at an unexpired tail -/

/-- C11 at a failing input: the store holds one session, accessed in the very second
of the sweep, and `maxLifeTime` is the largest `int64`. The back element is not
expired, `lastAccessed + T < now` being false, yet the sweep does not stop at it: it
removes the element and its key, so the store is not the one before the sweep. -/
theorem gc_does_not_stop_at_unexpired_tail_on_overflow :
    Back (SessionInit prov "a" 1700000000000000000).2.list = some 0 ∧
    ¬ ((deref (SessionInit prov "a" 1700000000000000000).2.heap 0).timeAccessed.Unix
        + 9223372036854775807 < Time.Unix 1700000000000000000) ∧
    (∃ q, SessionGC (SessionInit prov "a" 1700000000000000000).2 9223372036854775807
        1700000000000000000 = some q ∧ q.list = [] ∧ q.sessions = []) ∧
    SessionGC (SessionInit prov "a" 1700000000000000000).2 9223372036854775807
        1700000000000000000 ≠ some (SessionInit prov "a" 1700000000000000000).2 :=
  ⟨by decide, by decide, ⟨_, rfl, by decide, by decide⟩, by decide⟩

/-! ## C12: failure of the random source -/

/-- C12 at a failing input: on the empty store, `SessionStart` on a request without
cookies, when the random source fails, initialises a session under the empty
identifier, returns it, and hands out a cookie with the empty value. -/
theorem entropy_failure_creates_empty_session :
    Manager.sessionId none = "" ∧
    Manager.SessionStart ⟨"session_id", 3600⟩ prov [] ⟨[]⟩ none 5 =
      (0,
       { heap := [{ sid := "", timeAccessed := 5, value := [] }],
         sessions := [("", 0)], list := [0] },
       [{ Name := "session_id", Value := "", Path := "/", HttpOnly := true,
          Expires := none, MaxAge := 3600 }]) ∧
    SessionStore.SessionID
      (Manager.SessionStart ⟨"session_id", 3600⟩ prov [] ⟨[]⟩ none 5).2.1
      (Manager.SessionStart ⟨"session_id", 3600⟩ prov [] ⟨[]⟩ none 5).1 = "" :=
  ⟨rfl, by decide, by decide⟩

/-! ## C13: the interval of the periodic sweep -/

/-- C13 at a failing input: for `maxLifeTime = 3600` the sweep treats the number as
3600 seconds, and `Manager.GC` hands the timer a delay of 3600 nanoseconds, not
`3600 * time.Second`. -/
theorem gc_timer_delay_is_nanoseconds :
    Manager.GC ⟨"session_id", 3600⟩ prov 5 = some (prov, 3600) ∧
    (3600 : Int) ≠ 3600 * Second :=
  ⟨by decide, by decide⟩

/-! ## C14: the response cookie -/

/-- C14, as stated, fails: with `cookieName = "bad name"`, which is not a valid cookie
name, `SessionStart` on a request without cookies creates a session and the response
carries no cookie. -/
theorem SessionStart_sets_no_cookie_for_invalid_name :
    isCookieNameValid "bad name" = false ∧
    Request.Cookie ⟨[]⟩ "bad name" = none ∧
    (Manager.SessionStart ⟨"bad name", 3600⟩ prov [] ⟨[]⟩
        (some (List.replicate 32 0)) 5).2.1.list = [0] ∧
    (Manager.SessionStart ⟨"bad name", 3600⟩ prov [] ⟨[]⟩
        (some (List.replicate 32 0)) 5).2.2 = [] :=
  ⟨by decide, by decide, by decide, by decide⟩

/-- C14, amended: for every manager, store, request and outcome of the random
source. When `cookieName` is a valid cookie name and the request has no cookie of
that name, or one with the empty value, `SessionStart` adds exactly one cookie to
the response, with `Name = cookieName`, `Value = QueryEscape(sid)` for the
identifier `sid` of the session it returns, `Path = "/"`, `HttpOnly = true` and
`MaxAge = maxLifeTime`. When the request carries a cookie of that name with a
non-empty value, it adds none. When `cookieName` is not a valid cookie name, it adds
none either. -/
theorem SessionStart_sets_cookie_on_creation (manager : Manager) (p : Provider)
    (w : List Cookie) (r : Request) (rand : Option (List Nat)) (now : Time) :
    (isCookieNameValid manager.cookieName = true →
      (r.Cookie manager.cookieName = none ∨ r.Cookie manager.cookieName = some "") →
      (Manager.SessionStart manager p w r rand now).2.2 =
        w ++ [{ Name := manager.cookieName,
                Value := QueryEscape (SessionStore.SessionID
                  (Manager.SessionStart manager p w r rand now).2.1
                  (Manager.SessionStart manager p w r rand now).1),
                Path := "/", HttpOnly := true, Expires := none,
                MaxAge := manager.maxLifeTime }] ∧
      SessionStore.SessionID (Manager.SessionStart manager p w r rand now).2.1
        (Manager.SessionStart manager p w r rand now).1 = Manager.sessionId rand) ∧
    (∀ value, r.Cookie manager.cookieName = some value → value ≠ "" →
      (Manager.SessionStart manager p w r rand now).2.2 = w) ∧
    (isCookieNameValid manager.cookieName = false →
      (Manager.SessionStart manager p w r rand now).2.2 = w) := by
  refine ⟨?_, ?_, ?_⟩
  · intro hname hr
    rw [SessionStart_create manager p w r rand now hr, SetCookie_valid w _ hname]
    have hid : SessionStore.SessionID (SessionInit p (Manager.sessionId rand) now).2
        (SessionInit p (Manager.sessionId rand) now).1.1 = Manager.sessionId rand := by
      show (deref (p.heap ++ [_]) p.heap.length).sid = _
      rw [deref_append_new]
    exact ⟨by rw [hid], hid⟩
  · intro value hr hv
    rw [SessionStart_existing manager p w r rand now value hr hv]
  · intro hname
    cases hc : r.Cookie manager.cookieName with
    | none =>
      rw [SessionStart_create manager p w r rand now (Or.inl hc), SetCookie_invalid w _ hname]
    | some value =>
      by_cases hv : value = ""
      · rw [SessionStart_create manager p w r rand now (Or.inr (hv ▸ hc)),
          SetCookie_invalid w _ hname]
      · rw [SessionStart_existing manager p w r rand now value hc hv]

/-- C14, amended, on the empty store: with the cookie name `session_id` a request
without cookies gets the one cookie and a request carrying `session_id=abc` gets
none; with the cookie name `bad name` a request without cookies gets none. -/
theorem SessionStart_sets_cookie_on_creation_witness :
    (Manager.SessionStart ⟨"session_id", 3600⟩ prov [] ⟨[]⟩
        (some (List.replicate 32 0)) 5).2.2 =
      [{ Name := "session_id", Value := "AAAAAAAAAAAAAAAAAAAAAAAAAAAAAAAAAAAAAAAAAAA%3D",
         Path := "/", HttpOnly := true, Expires := none, MaxAge := 3600 }] ∧
    (Manager.SessionStart ⟨"session_id", 3600⟩ prov [] ⟨[("session_id", "abc")]⟩
        (some (List.replicate 32 0)) 5).2.2 = [] ∧
    (Manager.SessionStart ⟨"bad name", 3600⟩ prov [] ⟨[]⟩
        (some (List.replicate 32 0)) 5).2.2 = [] :=
  ⟨((SessionStart_sets_cookie_on_creation ⟨"session_id", 3600⟩ prov [] ⟨[]⟩
      (some (List.replicate 32 0)) 5).1 (by decide) (Or.inl (by decide))).1,
   (SessionStart_sets_cookie_on_creation ⟨"session_id", 3600⟩ prov []
      ⟨[("session_id", "abc")]⟩ (some (List.replicate 32 0)) 5).2.1 "abc" (by decide)
      (by decide),
   (SessionStart_sets_cookie_on_creation ⟨"bad name", 3600⟩ prov [] ⟨[]⟩
      (some (List.replicate 32 0)) 5).2.2 (by decide)⟩

/-! ## C15: stored values -/

/-- C15: for every store, identifier, key and values: a session obtained from
`SessionInit(id)` has no value under any key; after `Set(k, v)` on it, `SessionRead(id)`
returns the same session and `Get(k)` on it returns `v`. For every session `st`
of the store, `Get(k)` after `Set(k, v)` returns `v`, a second `Set(k, v2)` overwrites,
`Set(k, v)` leaves the other keys as they were, `Get(k)` after `Delete(k)` returns
nil, `Get` of a key that is not in the value map returns nil, and `Set` and `Delete`
return a nil error. -/
theorem values_follow_map_semantics (p : Provider) (st : Nat) (hst : st < p.heap.length)
    (sid : String) (key value value2 : Iface) (t0 t1 t2 t3 : Time) :
    (SessionStore.Get (SessionInit p sid t0).2 (SessionInit p sid t0).1.1 key t1).1
      = Iface.nil ∧
    (SessionRead (SessionStore.Set (SessionInit p sid t0).2 (SessionInit p sid t0).1.1
        key value t1).2 sid t2).1 = ((SessionInit p sid t0).1.1, none) ∧
    (SessionStore.Get
        (SessionRead (SessionStore.Set (SessionInit p sid t0).2 (SessionInit p sid t0).1.1
          key value t1).2 sid t2).2
        (SessionRead (SessionStore.Set (SessionInit p sid t0).2 (SessionInit p sid t0).1.1
          key value t1).2 sid t2).1.1 key t3).1 = value ∧
    (SessionStore.Get (SessionStore.Set p st key value t1).2 st key t2).1 = value ∧
    (SessionStore.Get (SessionStore.Set (SessionStore.Set p st key value t1).2 st key value2
        t2).2 st key t3).1 = value2 ∧
    (∀ key2, key2 ≠ key →
      (SessionStore.Get (SessionStore.Set p st key value t1).2 st key2 t2).1
        = (SessionStore.Get p st key2 t2).1) ∧
    (SessionStore.Get (SessionStore.Delete p st key t1).2 st key t2).1 = Iface.nil ∧
    (mapGet (deref p.heap st).value key = none →
      (SessionStore.Get p st key t1).1 = Iface.nil) ∧
    (SessionStore.Set p st key value t1).1 = none ∧
    (SessionStore.Delete p st key t1).1 = none := by
  have hget_set : ∀ (q : Provider) (s : Nat) (v : Iface) (a b : Time), s < q.heap.length →
      (SessionStore.Get (SessionStore.Set q s key v a).2 s key b).1 = v := by
    intro q s v a b hs
    rw [Get_eq, Set_value q s key v a hs, mapGet_mapSet, if_pos rfl]
    rfl
  have hnew : (SessionInit p sid t0).1.1 < (SessionInit p sid t0).2.heap.length := by
    show p.heap.length < (p.heap ++ [_]).length
    rw [List.length_append, List.length_singleton]
    exact Nat.lt_succ_self _
  have hread : SessionRead (SessionStore.Set (SessionInit p sid t0).2
      (SessionInit p sid t0).1.1 key value t1).2 sid t2
      = (((SessionInit p sid t0).1.1, none), (SessionStore.Set (SessionInit p sid t0).2
          (SessionInit p sid t0).1.1 key value t1).2) := by
    apply SessionRead_of_mapGet
    rw [Set_sessions]
    exact mapGet_SessionInit p sid t0
  refine ⟨?_, ?_, ?_, hget_set p st value t1 t2 hst, ?_, ?_, ?_, ?_, rfl, rfl⟩
  · rw [Get_eq]
    show (mapGet (deref (p.heap ++ [_]) p.heap.length).value key).getD Iface.nil = Iface.nil
    rw [deref_append_new]
    rfl
  · rw [hread]
  · rw [hread]
    exact hget_set _ _ value t1 t3 hnew
  · exact hget_set _ st value2 t2 t3 (by rw [Set_length]; exact hst)
  · intro key2 hk
    rw [Get_eq, Get_eq, Set_value p st key value t1 hst, mapGet_mapSet,
      if_neg (fun h => hk h.symm)]
  · rw [Get_eq, Delete_value p st key t1 hst, mapGet_mapDelete, if_pos rfl]
    rfl
  · intro h
    rw [Get_eq, h]
    rfl

/-- C15 on the store holding `"a"`, `"b"`, `"c"`, for the session of `"b"`, the new
identifier `"d"`, the key `"k"` and the values 7 and 8. -/
theorem values_follow_map_semantics_witness :
    (SessionStore.Get (SessionInit storeABC "d" 4).2 (SessionInit storeABC "d" 4).1.1
      (Iface.str "k") 5).1 = Iface.nil ∧
    (SessionRead (SessionStore.Set (SessionInit storeABC "d" 4).2
        (SessionInit storeABC "d" 4).1.1 (Iface.str "k") (Iface.int 7) 5).2 "d" 6).1
      = (3, none) ∧
    (SessionStore.Get
        (SessionRead (SessionStore.Set (SessionInit storeABC "d" 4).2
          (SessionInit storeABC "d" 4).1.1 (Iface.str "k") (Iface.int 7) 5).2 "d" 6).2
        (SessionRead (SessionStore.Set (SessionInit storeABC "d" 4).2
          (SessionInit storeABC "d" 4).1.1 (Iface.str "k") (Iface.int 7) 5).2 "d" 6).1.1
        (Iface.str "k") 7).1 = Iface.int 7 ∧
    (SessionStore.Get (SessionStore.Set storeABC 1 (Iface.str "k") (Iface.int 7) 5).2 1
      (Iface.str "k") 6).1 = Iface.int 7 ∧
    (SessionStore.Get (SessionStore.Set (SessionStore.Set storeABC 1 (Iface.str "k")
      (Iface.int 7) 5).2 1 (Iface.str "k") (Iface.int 8) 6).2 1 (Iface.str "k") 7).1
      = Iface.int 8 ∧
    (SessionStore.Get (SessionStore.Delete storeABC 1 (Iface.str "k") 5).2 1
      (Iface.str "k") 6).1 = Iface.nil ∧
    (SessionStore.Set storeABC 1 (Iface.str "k") (Iface.int 7) 5).1 = none ∧
    (SessionStore.Delete storeABC 1 (Iface.str "k") 5).1 = none :=
  have h := values_follow_map_semantics storeABC 1 (by decide) "d" (Iface.str "k")
    (Iface.int 7) (Iface.int 8) 4 5 6 7
  ⟨h.1, h.2.1, h.2.2.1, h.2.2.2.1, h.2.2.2.2.1, h.2.2.2.2.2.2.1, h.2.2.2.2.2.2.2.2.1,
    h.2.2.2.2.2.2.2.2.2⟩

/-! ## C16: value isolation -/

/-- C16: for every store and every two sessions `a` and `b` with different
identifiers, `Set(k, v)` and `Delete(k)` on `a` leave the value map of `b` as it was,
and with it the result of `Get(k2)` on `b` for every key `k2`. -/
theorem value_isolation (p : Provider) (a b : Nat)
    (h : SessionStore.SessionID p a ≠ SessionStore.SessionID p b)
    (key value : Iface) (now : Time) :
    (deref (SessionStore.Set p a key value now).2.heap b).value = (deref p.heap b).value ∧
    (deref (SessionStore.Delete p a key now).2.heap b).value = (deref p.heap b).value ∧
    (∀ key2 t, (SessionStore.Get (SessionStore.Set p a key value now).2 b key2 t).1
      = (SessionStore.Get p b key2 t).1) ∧
    (∀ key2 t, (SessionStore.Get (SessionStore.Delete p a key now).2 b key2 t).1
      = (SessionStore.Get p b key2 t).1) := by
  have hab : a ≠ b := fun e => h (e ▸ rfl)
  refine ⟨Set_value_other p a b key value now hab, Delete_value_other p a b key now hab,
    ?_, ?_⟩
  · intro key2 t
    rw [Get_eq, Get_eq, Set_value_other p a b key value now hab]
  · intro key2 t
    rw [Get_eq, Get_eq, Delete_value_other p a b key now hab]

/-- C16 on the store holding `"a"` and `"b"`, where `"b"` has the value 1 under
`"k"`: setting `"k"` to 2 on `"a"`, or deleting it there, leaves `Get("k")` on `"b"`
at 1. -/
theorem value_isolation_witness :
    (SessionStore.Get (SessionStore.Set
        (SessionStore.Set (SessionInit (SessionInit prov "a" 1).2 "b" 2).2 1 (Iface.str "k")
          (Iface.int 1) 3).2 0 (Iface.str "k") (Iface.int 2) 4).2 1 (Iface.str "k") 5).1
      = Iface.int 1 ∧
    (SessionStore.Get (SessionStore.Delete
        (SessionStore.Set (SessionInit (SessionInit prov "a" 1).2 "b" 2).2 1 (Iface.str "k")
          (Iface.int 1) 3).2 0 (Iface.str "k") 4).2 1 (Iface.str "k") 5).1
      = Iface.int 1 :=
  ⟨(value_isolation (SessionStore.Set (SessionInit (SessionInit prov "a" 1).2 "b" 2).2 1
      (Iface.str "k") (Iface.int 1) 3).2 0 1 (by decide) (Iface.str "k") (Iface.int 2)
      4).2.2.1 (Iface.str "k") 5,
   (value_isolation (SessionStore.Set (SessionInit (SessionInit prov "a" 1).2 "b" 2).2 1
      (Iface.str "k") (Iface.int 1) 3).2 0 1 (by decide) (Iface.str "k") (Iface.int 2)
      4).2.2.2 (Iface.str "k") 5⟩

/-! ## C17: the registry -/

/-- C17: `Register` panics exactly when the provider is nil or the name is already
registered, and then leaves the registry as it was; otherwise it returns and the
registry holds the new binding and the old bindings of the other names. After a
`Register` of a name with a non-nil provider, every further `Register` of that name
panics. `NewManager` returns an error exactly when the name is not registered, and
otherwise a manager with the registered provider, the given `cookieName` and the
given `maxLifeTime`. -/
theorem registry_contract {P : Type} (providers : List (String × P))
    (name cookieName : String) (provider : Option P) (maxLifeTime : Int) :
    ((Register providers name provider).1 ≠ none ↔
      provider = none ∨ mapGet providers name ≠ none) ∧
    ((Register providers name provider).1 ≠ none →
      (Register providers name provider).2 = providers) ∧
    (∀ pv, provider = some pv → mapGet providers name = none →
      (Register providers name provider).1 = none ∧
      mapGet (Register providers name provider).2 name = some pv ∧
      ∀ k, k ≠ name → mapGet (Register providers name provider).2 k = mapGet providers k) ∧
    (∀ pv provider2, (Register (Register providers name (some pv)).2 name provider2).1
      ≠ none) ∧
    ((∃ msg, NewManager providers name cookieName maxLifeTime = Except.error msg) ↔
      mapGet providers name = none) ∧
    (∀ pv, mapGet providers name = some pv →
      NewManager providers name cookieName maxLifeTime
        = Except.ok (pv, { cookieName := cookieName, maxLifeTime := maxLifeTime })) := by
  refine ⟨?_, ?_, ?_, ?_, ?_, ?_⟩
  · unfold Register
    cases provider with
    | none => simp
    | some pv => cases h : mapGet providers name <;> simp
  · unfold Register
    cases provider with
    | none => simp
    | some pv => cases h : mapGet providers name <;> simp
  · intro pv hpv hname
    subst hpv
    have hreg : Register providers name (some pv) = (none, mapSet providers name pv) := by
      unfold Register
      rw [hname]
    rw [hreg]
    refine ⟨rfl, ?_, ?_⟩
    · rw [mapGet_mapSet, if_pos rfl]
    · intro k hk
      rw [mapGet_mapSet, if_neg (fun h => hk h.symm)]
  · intro pv provider2
    have hreg : mapGet (Register providers name (some pv)).2 name ≠ none := by
      unfold Register
      cases h : mapGet providers name with
      | none => simp [mapGet_mapSet]
      | some x => simp [h]
    unfold Register
    cases provider2 with
    | none => simp
    | some pv2 =>
      simp only
      cases h : mapGet (Register providers name (some pv)).2 name with
      | none => exact absurd h hreg
      | some x => unfold Register at h; simp [h]
  · unfold NewManager
    cases h : mapGet providers name <;> simp
  · intro pv h
    unfold NewManager
    rw [h]

/-- C17 on the registry of the memory package: its `init` registers `"memory"`, a
second `Register("memory", …)` panics and leaves the registry as it was, and
`NewManager("memory", …)` returns a manager bound to the registered provider. -/
theorem registry_contract_witness :
    (Register (Register ([] : List (String × Provider)) "memory" (some prov)).2
        "memory" (some prov)).1 ≠ none ∧
    (Register (Register ([] : List (String × Provider)) "memory" (some prov)).2
        "memory" (some prov)).2 = [("memory", prov)] ∧
    NewManager [("memory", prov)] "memory" "session_id" 3600
      = Except.ok (prov, { cookieName := "session_id", maxLifeTime := 3600 }) :=
  ⟨(registry_contract ([] : List (String × Provider)) "memory" "session_id" none
      3600).2.2.2.1 prov (some prov),
   (registry_contract [("memory", prov)] "memory" "session_id" (some prov) 3600).2.1
      (by decide),
   (registry_contract [("memory", prov)] "memory" "session_id" (some prov) 3600).2.2.2.2.2
      prov (by decide)⟩

/-! ## C18: the locking of the store operations -/

/-- C18 at a failing input: on the store holding `"a"`, `"b"`, `"c"`,
`SessionRead("a")` looks the key up in the map and `SessionDestroy("a")` looks it up,
deletes it and unlinks the list element, both without taking the lock, while
`SessionInit`, `SessionUpdate` and `SessionGC` take it before their first access and
release it when they return. -/
theorem read_and_destroy_do_not_lock :
    SessionRead.events storeABC "a" = [Event.sessions] ∧
    lockDiscipline false (SessionRead.events storeABC "a") = false ∧
    SessionDestroy.events storeABC "a" = [Event.sessions, Event.sessions, Event.list] ∧
    lockDiscipline false (SessionDestroy.events storeABC "a") = false ∧
    lockDiscipline false SessionInit.events = true ∧
    lockDiscipline false (SessionUpdate.events storeABC "a") = true ∧
    lockDiscipline false (SessionGC.events storeABC 1 5000000000) = true :=
  ⟨by decide, by decide, by decide, by decide, by decide, by decide, by decide⟩

/-! ## C19: the bijection under fresh identifiers -/

/-- C19: for every sequence of `SessionInit` / `SessionRead` / `SessionUpdate` /
`SessionDestroy` / `SessionGC` calls and of `Set` / `Get` / `Delete` calls on any
session object, from the empty store, in which no direct `SessionInit` is given an
identifier that is a key of the lookup map at that moment, the run returns a store
in which the keys of the map are exactly the identifiers of the list elements, each
identifier occurs in exactly one list element, and the map sends each key to the
list element carrying it. -/
theorem bijection_all_calls (calls : List Call) (hfresh : initsFresh calls prov = true) :
    ∃ q, runCalls calls prov = some q ∧
      (∀ sid, sid ∈ mapKeys q.sessions ↔ sid ∈ listSids q) ∧
      (∀ sid ∈ listSids q, (listSids q).count sid = 1) ∧
      (∀ sid e, mapGet q.sessions sid = some e ↔ e ∈ q.list ∧ (deref q.heap e).sid = sid) := by
  obtain ⟨q, hq, hinv⟩ := runCalls_fresh calls prov Inv_prov hfresh
  refine ⟨q, hq, mem_mapKeys_iff_mem_listSids q hinv, ?_, ?_⟩
  · intro sid hsid
    exact List.count_eq_one_of_mem (listSids_nodup q hinv) hsid
  · intro sid e
    constructor
    · exact hinv.sound sid e
    · rintro ⟨h1, h2⟩
      rw [← h2]
      exact hinv.complete e h1

/-- C19 on a run with every kind of call: `"a"` and `"b"` are initialised, a value
is set on `"a"`, `"c"` is read, `"b"` is updated and destroyed, the sweep collects
`"c"`, a value is read from the destroyed session of `"b"`, and `"b"` is initialised
again. -/
theorem bijection_all_calls_witness :
    ∃ q, runCalls [Call.SessionInit "a" 1000000000, Call.SessionInit "b" 2000000000,
        Call.Set 0 (Iface.str "k") (Iface.int 1) 3000000000,
        Call.SessionRead "c" 4000000000, Call.SessionUpdate "b" 5000000000,
        Call.SessionDestroy "b", Call.SessionGC 1 6000000000,
        Call.Get 1 (Iface.str "k") 7000000000, Call.Delete 0 (Iface.str "k") 8000000000,
        Call.SessionInit "b" 9000000000] prov = some q ∧
      (∀ sid, sid ∈ mapKeys q.sessions ↔ sid ∈ listSids q) ∧
      (∀ sid ∈ listSids q, (listSids q).count sid = 1) ∧
      (∀ sid e, mapGet q.sessions sid = some e ↔ e ∈ q.list ∧ (deref q.heap e).sid = sid) :=
  bijection_all_calls _ (by decide)

/-! ## C20: the sweep terminates and removes the expired tail -/

/-- C20 at a failing input: the store holds one session, accessed in the very second
of the sweep, and `maxLifeTime` is the largest `int64`. No entry satisfies
`lastAccessed + T < now`, so the longest expired suffix is empty and the list
without it is the whole list; the sweep returns within two iterations, but with the
empty list. -/
theorem gc_removes_unexpired_suffix_on_overflow :
    (SessionInit prov "a" 1700000000000000000).2.list = [0] ∧
    (SessionInit prov "a" 1700000000000000000).2.list.rdropWhile
      (fun e => decide
        ((deref (SessionInit prov "a" 1700000000000000000).2.heap e).timeAccessed.Unix
          + 9223372036854775807 < Time.Unix 1700000000000000000)) = [0] ∧
    ∃ q, SessionGCLoop 9223372036854775807 1700000000000000000 2
        (SessionInit prov "a" 1700000000000000000).2 = some q ∧
      SessionGC (SessionInit prov "a" 1700000000000000000).2 9223372036854775807
        1700000000000000000 = some q ∧
      q.list = [] :=
  ⟨by decide, by decide, _, rfl, rfl, by decide⟩

end SessionManager
